import Mathlib

/-!
Verification of the Compliance-RAG backend core against its specification.

The Python source under `backend/` is shallowly embedded:

* Pure functions (`chunk_text`, the clause parsers, `reciprocal_rank_fusion`)
  become Lean functions over `List Char` / `String` / `ℚ`.
* The mutable in-memory store (`models.py`) becomes explicit state passing:
  every operation takes the store and the current time (`now : Nat`,
  standing for `datetime.utcnow()`) and returns the result together with the
  updated store.  Python dicts preserve insertion order, so each per-session
  table is a list of records in insertion order; `dict.get` is `List.find?`.
* External capabilities (the vector engine's top-k similarity search, the
  LLM, `json.loads`) are parameters of the embedded functions, exactly at
  the call boundary where the source delegates to them.
* Floating point scores are modelled with exact rationals `ℚ`, i.e. the
  real-number semantics of the arithmetic written in the source.
-/

/-! ### Python string helpers (character-level semantics of `str` methods) -/

/-- Python `str.strip()` on a character list: drop whitespace on both ends. -/
def pyStripL (l : List Char) : List Char :=
  ((l.dropWhile Char.isWhitespace).reverse.dropWhile Char.isWhitespace).reverse

/-- Python `str.strip()` on a `String`. -/
def pyStrip (s : String) : String :=
  String.mk (pyStripL s.data)

/-- Python `str.lower()` (ASCII-adequate, via `Char.toLower`). -/
def pyLower (s : String) : String :=
  String.mk (s.data.map Char.toLower)

/-- Substring occurrence on character lists (Python `in` on `str`). -/
def isSubList (needle : List Char) : List Char → Bool
  | [] => needle.isEmpty
  | c :: rest => needle.isPrefixOf (c :: rest) || isSubList needle rest

/-- Python `needle in haystack` substring test. -/
def pyContains (needle haystack : String) : Bool :=
  isSubList needle.data haystack.data

/-- Python `" | ".join(...)`-style separator join. -/
def joinSep (sep : String) : List String → String
  | [] => ""
  | [x] => x
  | x :: y :: rest => x ++ sep ++ joinSep sep (y :: rest)

/-! ### `models.py` — the in-memory multi-session record store -/

/-- A dynamically-typed value flowing out of the judgment capability's JSON
output and into stored results (Python is untyped here: parsed JSON values
are stored as-is). -/
inductive JVal where
  | s (v : String)
  | n (v : ℚ)
  | b (v : Bool)
  | null
deriving DecidableEq

/-- `models.Document`. `uploaded_at` is the tick at creation time. -/
structure Document where
  id : Nat
  filename : String
  file_type : String
  version : String
  uploaded_at : Nat
deriving DecidableEq

/-- `models.Clause`. -/
structure Clause where
  id : Nat
  document_id : Nat
  clause_id : String
  text : String
  page_number : Nat
  severity : String
deriving DecidableEq

/-- `models.Assessment`. -/
structure Assessment where
  id : Nat
  customer_doc_id : Nat
  regulation_doc_id : Nat
  created_at : Nat
deriving DecidableEq

/-- `models.AssessmentResult`.  The verdict fields hold whatever the
normalized JSON produced, hence `JVal`. -/
structure AssessmentResult where
  id : Nat
  assessment_id : Nat
  customer_clause_id : Nat
  regulation_clause_id : Nat
  status : JVal
  risk : JVal
  reasoning : JVal
  evidence_text : JVal
  confidence : JVal
deriving DecidableEq

/-- One conversation-history message.

Modelled from the spec: the history accessors (`store.get_history`,
`store.add_history_message`) are called from `main.py` but their definitions
are not part of the sources under `src/`; per spec §4.6 every successful
chat turn appends the `(user, answer)` pair to the session's conversation
history. -/
structure ChatMsg where
  role : String
  content : String
deriving DecidableEq

/-- `models.SessionData`: the per-session tables (dict values in insertion
order), monotonic counters, and the inactivity timestamp. -/
structure SessionData where
  documents : List Document
  clauses : List Clause
  assessments : List Assessment
  assessment_results : List AssessmentResult
  history : List ChatMsg
  doc_counter : Nat
  clause_counter : Nat
  assessment_counter : Nat
  result_counter : Nat
  last_activity : Nat
deriving DecidableEq

/-- A fresh `SessionData()` at tick `now`. -/
def emptySession (now : Nat) : SessionData :=
  ⟨[], [], [], [], [], 0, 0, 0, 0, now⟩

/-- `InMemoryStore.sessions`: session-id-keyed dict, insertion ordered. -/
abbrev Store := List (String × SessionData)

/-- Lookup of a session without touching it (a read of the dict, used only
in statements, not an operation of the source). -/
def sessionFind (st : Store) (sid : String) : Option SessionData :=
  (List.find? (fun p => p.1 == sid) st).map (·.2)

/-- `InMemoryStore.get_session`: create the session if absent, refresh
`last_activity`, and return it (with the store holding the refreshed copy). -/
def get_session (st : Store) (sid : String) (now : Nat) : SessionData × Store :=
  match sessionFind st sid with
  | some s =>
    let s' := { s with last_activity := now }
    (s', st.map (fun p => if p.1 == sid then (p.1, s') else p))
  | none =>
    let s' := emptySession now
    (s', st ++ [(sid, s')])

/-- Write back the (present) session record. -/
def setSession (st : Store) (sid : String) (s : SessionData) : Store :=
  st.map (fun p => if p.1 == sid then (p.1, s) else p)

/-- The session as `get_session` returns it: the stored one with a
refreshed `last_activity`, or a fresh empty one. -/
def touchSession (st : Store) (sid : String) (now : Nat) : SessionData :=
  match sessionFind st sid with
  | some s => { s with last_activity := now }
  | none => emptySession now

/-- The common shape of every store operation: resolve-and-touch the
session, run the body on it, write the result back. -/
def withSession (st : Store) (sid : String) (now : Nat)
    (f : SessionData → α × SessionData) : α × Store :=
  let (s, st1) := get_session st sid now
  let (a, s') := f s
  (a, setSession st1 sid s')

/-- `InMemoryStore.reset(session_id)`: drop the session outright. -/
def store_reset (st : Store) (sid : String) : Store :=
  st.filter (fun p => p.1 ≠ sid)

/-- `InMemoryStore.add_document`. -/
def add_document (st : Store) (sid : String) (filename file_type version : String)
    (now : Nat) : Document × Store :=
  withSession st sid now (fun s =>
    let doc : Document := ⟨s.doc_counter + 1, filename, file_type, version, now⟩
    (doc, { s with doc_counter := s.doc_counter + 1,
                   documents := s.documents ++ [doc] }))

/-- `InMemoryStore.get_document`. -/
def get_document (st : Store) (sid : String) (doc_id : Nat) (now : Nat) :
    Option Document × Store :=
  withSession st sid now (fun s => (s.documents.find? (fun d => d.id == doc_id), s))

/-- `InMemoryStore.get_all_documents`. -/
def get_all_documents (st : Store) (sid : String) (now : Nat) :
    List Document × Store :=
  withSession st sid now (fun s => (s.documents, s))

/-- `InMemoryStore.delete_document`: remove the document's dict entry and
then the clauses whose ids were collected by the `document_id` scan.
(No assessment cascade here — that lives in the HTTP route.) -/
def store_delete_document (st : Store) (sid : String) (doc_id : Nat) (now : Nat) :
    Bool × Store :=
  withSession st sid now (fun s =>
    if (s.documents.find? (fun d => d.id == doc_id)).isSome then
      let clause_ids := (s.clauses.filter (fun c => c.document_id == doc_id)).map (·.id)
      (true, { s with documents := s.documents.filter (fun d => ¬ d.id == doc_id),
                      clauses := s.clauses.filter (fun c => ¬ clause_ids.contains c.id) })
    else (false, s))

/-- `InMemoryStore.add_clause`. -/
def add_clause (st : Store) (sid : String) (document_id : Nat)
    (clause_id text : String) (page_number : Nat) (severity : String)
    (now : Nat) : Clause × Store :=
  withSession st sid now (fun s =>
    let c : Clause := ⟨s.clause_counter + 1, document_id, clause_id, text, page_number, severity⟩
    (c, { s with clause_counter := s.clause_counter + 1,
                 clauses := s.clauses ++ [c] }))

/-- `InMemoryStore.get_clause`. -/
def get_clause (st : Store) (sid : String) (clause_id : Nat) (now : Nat) :
    Option Clause × Store :=
  withSession st sid now (fun s => (s.clauses.find? (fun c => c.id == clause_id), s))

/-- `InMemoryStore.get_clauses_by_document`. -/
def get_clauses_by_document (st : Store) (sid : String) (doc_id : Nat) (now : Nat) :
    List Clause × Store :=
  withSession st sid now (fun s => (s.clauses.filter (fun c => c.document_id == doc_id), s))

/-- `InMemoryStore.get_clause_by_doc_and_clause_id`. -/
def get_clause_by_doc_and_clause_id (st : Store) (sid : String) (doc_id : Nat)
    (clause_id_str : String) (now : Nat) : Option Clause × Store :=
  withSession st sid now (fun s =>
    (s.clauses.find? (fun c => c.document_id == doc_id && c.clause_id == clause_id_str), s))

/-- `InMemoryStore.add_assessment`. -/
def add_assessment (st : Store) (sid : String) (customer_doc_id regulation_doc_id : Nat)
    (now : Nat) : Assessment × Store :=
  withSession st sid now (fun s =>
    let a : Assessment := ⟨s.assessment_counter + 1, customer_doc_id, regulation_doc_id, now⟩
    (a, { s with assessment_counter := s.assessment_counter + 1,
                 assessments := s.assessments ++ [a] }))

/-- `InMemoryStore.get_assessment`. -/
def get_assessment (st : Store) (sid : String) (assessment_id : Nat) (now : Nat) :
    Option Assessment × Store :=
  withSession st sid now (fun s => (s.assessments.find? (fun a => a.id == assessment_id), s))

/-- `InMemoryStore.get_assessments_by_doc`. -/
def get_assessments_by_doc (st : Store) (sid : String) (doc_id : Nat) (now : Nat) :
    List Assessment × Store :=
  withSession st sid now (fun s =>
    (s.assessments.filter (fun a => a.customer_doc_id == doc_id || a.regulation_doc_id == doc_id), s))

/-- `InMemoryStore.add_result`. -/
def add_result (st : Store) (sid : String) (assessment_id customer_clause_id
    regulation_clause_id : Nat) (status risk reasoning evidence_text confidence : JVal)
    (now : Nat) : AssessmentResult × Store :=
  withSession st sid now (fun s =>
    let r : AssessmentResult := ⟨s.result_counter + 1, assessment_id, customer_clause_id,
      regulation_clause_id, status, risk, reasoning, evidence_text, confidence⟩
    (r, { s with result_counter := s.result_counter + 1,
                 assessment_results := s.assessment_results ++ [r] }))

/-- `InMemoryStore.get_results_by_assessment`. -/
def get_results_by_assessment (st : Store) (sid : String) (assessment_id : Nat)
    (now : Nat) : List AssessmentResult × Store :=
  withSession st sid now (fun s =>
    (s.assessment_results.filter (fun r => r.assessment_id == assessment_id), s))

/-- `InMemoryStore.delete_results_by_assessment`. -/
def delete_results_by_assessment (st : Store) (sid : String) (assessment_id : Nat)
    (now : Nat) : Unit × Store :=
  withSession st sid now (fun s =>
    let result_ids := (s.assessment_results.filter (fun r => r.assessment_id == assessment_id)).map (·.id)
    ((), { s with assessment_results :=
      s.assessment_results.filter (fun r => ¬ result_ids.contains r.id) }))

/-- `InMemoryStore.delete_assessment`: results first, then the record. -/
def delete_assessment (st : Store) (sid : String) (assessment_id : Nat) (now : Nat) : Store :=
  let (_, st1) := delete_results_by_assessment st sid assessment_id now
  (withSession st1 sid now (fun s =>
    ((), { s with assessments := s.assessments.filter (fun a => ¬ a.id == assessment_id) }))).2

/-- `store.get_history` (modelled from the spec, see `ChatMsg`). -/
def get_history (st : Store) (sid : String) (now : Nat) : List ChatMsg × Store :=
  withSession st sid now (fun s => (s.history, s))

/-- `store.add_history_message` (modelled from the spec, see `ChatMsg`). -/
def add_history_message (st : Store) (sid : String) (role content : String)
    (now : Nat) : Store :=
  (withSession st sid now (fun s =>
    ((), { s with history := s.history ++ [⟨role, content⟩] }))).2

/-! ### `rag.py` — vector records, reciprocal rank fusion, engine routing -/

/-- Metadata of a vector record; all keys optional (`dict.get` semantics). -/
structure Meta where
  source_type : Option String
  doc_name : Option String
  clause_id : Option String
  doc_id : Option String
  page_number : Option Nat
deriving DecidableEq

/-- A record stored in / returned by the vector engine (langchain `Document`:
`page_content` plus `metadata`). -/
structure VRec where
  text : String
  metadata : Meta
deriving DecidableEq

/-- The composite de-duplication key of `reciprocal_rank_fusion`:
`f"{source_type}_{doc_name}_{clause_id}"` with the `.get` defaults. -/
def rrfKey (d : VRec) : String :=
  d.metadata.source_type.getD "UNKNOWN" ++ "_" ++
  d.metadata.doc_name.getD "Unknown" ++ "_" ++
  d.metadata.clause_id.getD "Unknown"

/-- One `fused_scores` entry: key ↦ (doc, score); the dict is an
insertion-ordered association list. -/
abbrev FusedEntry := String × VRec × ℚ

/-- The dict update step of the RRF loop body: if the key is new, insert
`(doc, 0 + contrib)` at the end; otherwise overwrite the entry in place with
`(doc, old + contrib)` (the stored doc becomes the latest-seen one, the
position stays the first-seen one). -/
def rrfUpsert (f : List FusedEntry) (key : String) (d : VRec) (contrib : ℚ) :
    List FusedEntry :=
  if f.any (fun e => e.1 == key) then
    f.map (fun e => if e.1 == key then (e.1, d, e.2.2 + contrib) else e)
  else
    f ++ [(key, d, contrib)]

/-- Inner loop of `reciprocal_rank_fusion`: `for rank, (doc, _) in
enumerate(results)` with contribution `weight * 1 / (k + rank + 1)`;
`rank` is the running 0-based index. -/
def rrfSrc (k w : ℚ) : Nat → List (VRec × ℚ) → List FusedEntry → List FusedEntry
  | _, [], f => f
  | rank, p :: rest, f =>
    rrfSrc k w (rank + 1) rest (rrfUpsert f (rrfKey p.1) p.1 (w * (1 / (k + rank + 1))))

/-- `source_weights[src_idx] if src_idx < len(source_weights) else 1.0`. -/
def rrfWeight (ws : List ℚ) (i : Nat) : ℚ :=
  if h : i < ws.length then ws.get ⟨i, h⟩ else 1

/-- Outer loop: `for src_idx, results in enumerate(search_results_list)`. -/
def rrfAll (k : ℚ) (ws : List ℚ) : Nat → List (List (VRec × ℚ)) →
    List FusedEntry → List FusedEntry
  | _, [], f => f
  | i, src :: rest, f => rrfAll k ws (i + 1) rest (rrfSrc k (rrfWeight ws i) 0 src f)

/-- Stable insertion for descending sort: walk past strictly greater scores,
insert before the first element of score `≤` ours (so an earlier element
never jumps behind an equal-scored later one). -/
def insertDescBy (score : α → ℚ) (x : α) : List α → List α
  | [] => [x]
  | y :: ys => if score x < score y then y :: insertDescBy score x ys else x :: y :: ys

/-- Stable sort by descending score — the semantics of Python
`sorted(..., key=lambda x: x[1], reverse=True)`. -/
def sortDescBy (score : α → ℚ) : List α → List α
  | [] => []
  | x :: xs => insertDescBy score x (sortDescBy score xs)

/-- `RAGEngine.reciprocal_rank_fusion` (defaults: `k = 60`,
`source_weights = None` meaning all-ones). -/
def reciprocal_rank_fusion (search_results_list : List (List (VRec × ℚ)))
    (k : ℚ) (source_weights : Option (List ℚ)) : List (VRec × ℚ) :=
  let ws := source_weights.getD (List.replicate search_results_list.length 1)
  let fused := rrfAll k ws 0 search_results_list []
  (sortDescBy (fun e => e.2.2) fused).map (·.2)

/-- `RAGEngine`'s vector-store state.  In Pinecone mode the engine holds one
collection per namespace; in FAISS fallback mode it holds a single optional
un-namespaced collection (`self.vector_store`, `None` until first ingest). -/
structure RAGState where
  use_pinecone : Bool
  pinecone_namespaces : List (String × List VRec)
  faiss_store : Option (List VRec)
deriving DecidableEq

/-- `RAGEngine.get_session_namespace`. -/
def get_session_namespace (session_id : String) : String :=
  "session_" ++ session_id

/-- Namespace resolution used by ingest/clear:
`namespace or (session_... if session_id else "session")`. -/
def resolveNamespace (session_id nsArg : Option String) : String :=
  match nsArg with
  | some ns => ns
  | none =>
    match session_id with
    | some s => get_session_namespace s
    | none => "session"

/-- The records of one Pinecone namespace (empty if never written). -/
def nsLookup (eng : RAGState) (ns : String) : List VRec :=
  ((eng.pinecone_namespaces.find? (fun p => p.1 == ns)).map (·.2)).getD []

/-- Upsert a batch of records into a Pinecone namespace. -/
def nsAdd (nss : List (String × List VRec)) (ns : String) (recs : List VRec) :
    List (String × List VRec) :=
  if nss.any (fun p => p.1 == ns) then
    nss.map (fun p => if p.1 == ns then (p.1, p.2 ++ recs) else p)
  else
    nss ++ [(ns, recs)]

/-- One dict built by `ingest_documents` from a parsed clause
(the `ingest_clauses` entries produced by `ingestion.parse_document`). -/
structure IngestRec where
  clause_id : String
  doc_id : Nat
  doc_name : Option String
  text : String
  page_number : Nat
deriving DecidableEq

/-- The vector record built for one ingest dict: text plus metadata
`{clause_id, doc_id (stringified), doc_name (default "Unknown"),
page_number}`; no `source_type` is set at ingest time. -/
def ingestToVRec (c : IngestRec) : VRec :=
  { text := c.text,
    metadata :=
      { source_type := none,
        doc_name := some (c.doc_name.getD "Unknown"),
        clause_id := some c.clause_id,
        doc_id := some (toString c.doc_id),
        page_number := some c.page_number } }

/-- `RAGEngine.ingest_documents`: no-op on an empty batch; Pinecone mode
adds to the resolved namespace; FAISS mode creates or extends the single
shared collection, ignoring the namespace. -/
def ingest_documents (eng : RAGState) (clauses : List IngestRec)
    (session_id nsArg : Option String) : RAGState :=
  if clauses.isEmpty then eng
  else
    let ns := resolveNamespace session_id nsArg
    let recs := clauses.map ingestToVRec
    if eng.use_pinecone then
      { eng with pinecone_namespaces := nsAdd eng.pinecone_namespaces ns recs }
    else
      match eng.faiss_store with
      | none => { eng with faiss_store := some recs }
      | some old => { eng with faiss_store := some (old ++ recs) }

/-- `RAGEngine.clear_index`: Pinecone mode deletes exactly the resolved
namespace; FAISS mode sets `self.vector_store = None`, dropping everything. -/
def clear_index (eng : RAGState) (session_id nsArg : Option String) : RAGState :=
  let ns := resolveNamespace session_id nsArg
  if eng.use_pinecone then
    { eng with pinecone_namespaces := eng.pinecone_namespaces.filter (fun p => ¬ p.1 == ns) }
  else
    { eng with faiss_store := none }

/-- `d.metadata["source_type"] = label` applied to a scored result. -/
def setSourceType (label : String) (p : VRec × ℚ) : VRec × ℚ :=
  ({ p.1 with metadata := { p.1.metadata with source_type := some label } }, p.2)

/-- The external top-k similarity-search capability
(`similarity_search_with_score` of the underlying engine): given a
collection, a query and `k`, return scored results. -/
abbrev SearchFn := List VRec → String → Nat → List (VRec × ℚ)

/-- `RAGEngine.retrieve_similar_clauses`.  Pinecone mode: search the session
namespace (label `DOC`), optionally the `permanent` namespace with `2*k`
(label `KB`); then either filter by `doc_id` (truthy, i.e. nonzero) and take
`top_k`, or fuse with RRF weights `[1.5, 1.0]` and take `top_k + 5`.
FAISS fallback: search the single collection with `2*k`, label `FAISS`,
take `top_k`; an absent collection returns `[]`. -/
def retrieve_similar_clauses (search : SearchFn) (eng : RAGState)
    (query_text : String) (top_k : Nat) (use_kb : Bool)
    (session_id : Option String) (doc_id : Option Nat) : List (VRec × ℚ) :=
  let session_ns := match session_id with
    | some s => get_session_namespace s
    | none => "session"
  if eng.use_pinecone then
    let doc_results := (search (nsLookup eng session_ns) query_text top_k).map
      (setSourceType "DOC")
    let kb_results := if use_kb then
        (search (nsLookup eng "permanent") query_text (top_k * 2)).map (setSourceType "KB")
      else []
    if (doc_id.getD 0) ≠ 0 then
      (((doc_results ++ kb_results).filter
        (fun p => p.1.metadata.doc_id == some (toString (doc_id.getD 0)))).take top_k)
    else
      (reciprocal_rank_fusion [kb_results, doc_results] 60 (some [3/2, 1])).take (top_k + 5)
  else
    match eng.faiss_store with
    | none => []
    | some col => ((search col query_text (top_k * 2)).map (setSourceType "FAISS")).take top_k

/-! ### `rag.py` — `analyze_compliance`: verdict normalization and defaults -/

/-- Key normalization of the parsed JSON object:
`str(k).lower().replace(" ", "_")`. -/
def normKeyStr (k : String) : String :=
  String.mk (k.data.map (fun c => if c.toLower = ' ' then '_' else c.toLower))

/-- `normalized.get(key)` after the normalization loop: the dict is built by
successive assignment, so the last binding of a normalized key wins. -/
def jget (data : List (String × JVal)) (key : String) : Option JVal :=
  (((data.map (fun p => (normKeyStr p.1, p.2))).filter (fun p => p.1 == key)).getLast?).map (·.2)

/-- The `final` verdict dict of `analyze_compliance` (always has exactly
these five keys, so the later `.get` calls in `process_clause` always hit). -/
structure Verdict where
  status : JVal
  risk : JVal
  reasoning : JVal
  evidence_text : JVal
  confidence : JVal
deriving DecidableEq

/-- `content.find("{")` / `content.rfind("}")` slicing: keep
`content[start:end+1]` when both braces are found, else the whole string. -/
def sliceBraces (content : String) : String :=
  let cs := content.data
  match cs.findIdx? (fun c => c == '{'), cs.reverse.findIdx? (fun c => c == '}') with
  | some st, some rIdx =>
    let en := cs.length - 1 - rIdx
    String.mk ((cs.drop st).take (en + 1 - st))
  | _, _ => content

/-- The external JSON decoding capability (`json.loads` plus the subsequent
`.items()` access): yields the object's key/value pairs, or an error both
for invalid JSON and for a non-object value. -/
abbrev JsonLoads := String → Except String (List (String × JVal))

/-- `RAGEngine.analyze_compliance`, given the outcome of the LLM invocation
(`Except`: the capability raised, or returned `res.content`) and the JSON
capability.  Mirrors the three paths of the source: invocation error →
full default verdict with an `AI analysis failed` reasoning; parse error →
full default verdict with a `Failed to interpret AI response` reasoning;
parsed object → field-wise lookup with per-field alias chains and defaults. -/
def analyze_compliance (json_loads : JsonLoads)
    (llm_result : Except String String) : Verdict :=
  match llm_result with
  | .error e =>
    ⟨.s "UNKNOWN", .s "HIGH", .s ("AI analysis failed: " ++ e), .s "N/A", .n 0⟩
  | .ok raw =>
    let content := sliceBraces (pyStrip raw)
    match json_loads content with
    | .error e =>
      ⟨.s "UNKNOWN", .s "HIGH", .s ("Failed to interpret AI response: " ++ e), .s "N/A", .n 0⟩
    | .ok data =>
      ⟨(jget data "status").getD ((jget data "compliance_status").getD (.s "UNKNOWN")),
       (jget data "risk").getD ((jget data "risk_level").getD (.s "HIGH")),
       (jget data "reasoning").getD ((jget data "description").getD (.s "No reasoning provided")),
       (jget data "evidence_text").getD ((jget data "literal_evidence").getD
         ((jget data "evidence").getD (.s "N/A"))),
       (jget data "confidence").getD ((jget data "confidence_score").getD (.n 0))⟩

/-! ### `main.py` — the `/assess` orchestrator -/

/-- The retrieval call made per customer clause
(`rag_engine.retrieve_similar_clauses(c_clause.text, doc_id=regulation_doc_id,
use_kb=use_kb, session_id=session_id)`), abstracted over the clause text. -/
abbrev RetrieveFn := String → List (VRec × ℚ)

/-- The LLM invocation of `analyze_compliance` for one
(customer text, regulation text) pair: raised exception or `res.content`. -/
abbrev JudgeFn := String → String → Except String String

/-- `process_clause` inside `assess_compliance`: retrieve, take the top hit,
resolve the regulation clause record, judge, persist.  `None` when there is
no hit or no matching clause record; an uncaught `KeyError` (a top hit
without `clause_id` metadata) aborts the whole request, hence `Except`. -/
def process_clause (retr : RetrieveFn) (judge : JudgeFn) (json_loads : JsonLoads)
    (st : Store) (sid : String) (regulation_doc_id assessment_id : Nat)
    (c : Clause) (now : Nat) : Except String (Option AssessmentResult × Store) :=
  match retr c.text with
  | [] => .ok (none, st)
  | best :: _ =>
    match best.1.metadata.clause_id with
    | none => .error "KeyError: clause_id"
    | some reg_clause_id_val =>
      let res := get_clause_by_doc_and_clause_id st sid regulation_doc_id
        reg_clause_id_val now
      match res.1 with
      | none => .ok (none, res.2)
      | some reg_clause =>
        let analysis := analyze_compliance json_loads (judge c.text reg_clause.text)
        let res2 := add_result res.2 sid assessment_id c.id reg_clause.id
          analysis.status analysis.risk analysis.reasoning analysis.evidence_text
          analysis.confidence now
        .ok (some res2.1, res2.2)

/-- Sequential embedding of `asyncio.gather(*[process_clause(c) for c in
customer_clauses])` followed by the `None` filter: the per-clause tasks are
independent and the store mutations commute, so the deterministic order is
the semantics of the gathered batch; the count accumulates the non-`None`
outcomes. -/
def assessLoop (retr : RetrieveFn) (judge : JudgeFn) (json_loads : JsonLoads)
    (sid : String) (regulation_doc_id assessment_id : Nat) (now : Nat) :
    List Clause → Store → Nat → Except String Nat × Store
  | [], st, count => (.ok count, st)
  | c :: rest, st, count =>
    match process_clause retr judge json_loads st sid regulation_doc_id assessment_id c now with
    | .error e => (.error e, st)
    | .ok (r, st') =>
      assessLoop retr judge json_loads sid regulation_doc_id assessment_id now
        rest st' (count + (if r.isSome then 1 else 0))

/-- The `/assess` route (`main.assess_compliance`): fail fast with the
empty-input error when the customer document has no clauses, otherwise
create the `Assessment` record and run the per-clause batch; returns
`(assessment_id, results_count)`. -/
def assess_compliance (retr : RetrieveFn) (judge : JudgeFn) (json_loads : JsonLoads)
    (st : Store) (sid : String) (customer_doc_id regulation_doc_id : Nat)
    (now : Nat) : Except String (Nat × Nat) × Store :=
  let res := get_clauses_by_document st sid customer_doc_id now
  if res.1.isEmpty then
    (.error "No clauses found in customer document", res.2)
  else
    let resA := add_assessment res.2 sid customer_doc_id regulation_doc_id now
    let out := assessLoop retr judge json_loads sid regulation_doc_id resA.1.id now
      res.1 resA.2 0
    match out.1 with
    | .error e => (.error e, out.2)
    | .ok count => (.ok (resA.1.id, count), out.2)

/-! ### `ingestion.py` — clause extraction and chunking -/

/-- One parsed clause dict as produced by `parse_pdf` / `parse_docx` /
`parse_xlsx`. -/
structure RawClause where
  clause_id : String
  text : String
  page_number : Nat
  severity : String
deriving DecidableEq

/-- Severity test of the PDF/DOCX structured path:
`"shall" in text.lower() or "must" in text.lower()`. -/
def shallMust (s : String) : Bool :=
  pyContains "shall" (pyLower s) || pyContains "must" (pyLower s)

/-- Severity test of the XLSX rows:
`any(word in row_text.lower() for word in ["shall", "must", "required"])`. -/
def shallMustRequired (s : String) : Bool :=
  pyContains "shall" (pyLower s) || pyContains "must" (pyLower s) ||
    pyContains "required" (pyLower s)

/-- An XLSX workbook after the external `openpyxl` extraction: sheets in
order, each a list of rows of cell values (`None` cells as `none`; a
non-`None` cell as its `str()`). -/
abbrev Workbook := List (String × List (List (Option String)))

/-- `ingestion.parse_xlsx` (after the external extraction): skip empty
rows (`if not row: continue`, with `enumerate` still counting them), pipe-join
the non-`None` cells, keep rows longer than 20 characters, severity `MUST`
on shall/must/required else `SHOULD`. -/
def parse_xlsx (wb : Workbook) : List RawClause :=
  (wb.map (fun sh =>
    (sh.2.enum.filterMap (fun rr =>
      if rr.2.isEmpty then none
      else
        if 20 < (pyStrip (joinSep " | " (rr.2.filterMap id))).data.length then
          some ⟨sh.1 ++ "-R" ++ toString (rr.1 + 1),
                pyStrip (joinSep " | " (rr.2.filterMap id)), 1,
                if shallMustRequired (pyStrip (joinSep " | " (rr.2.filterMap id)))
                then "MUST" else "SHOULD"⟩
        else none)))).flatten

/-- `str(cell).strip() if cell else ""` for a table cell (falsy cells are
modelled as `none`). -/
def tableCellStr (c : Option String) : String :=
  match c with
  | none => ""
  | some s => pyStrip s

/-- Match of the caption regex `Table\s+[\d\.]+[-\d]*` anchored at the head
of the list: literal `Table`, whitespace run, digits/dots run, then a
digits/dashes run (all runs greedy; the first two mandatory). -/
def matchTableRefAt (l : List Char) : Option (List Char) :=
  if "Table".data.isPrefixOf l then
    let rest := l.drop 5
    let ws := rest.takeWhile Char.isWhitespace
    if ws.isEmpty then none
    else
      let r2 := rest.drop ws.length
      let digs := r2.takeWhile (fun c => c.isDigit || c == '.')
      if digs.isEmpty then none
      else
        let r3 := r2.drop digs.length
        some ("Table".data ++ ws ++ digs ++ r3.takeWhile (fun c => c.isDigit || c == '-'))
  else none

/-- `re.search` for the caption regex: first (leftmost) match. -/
def findTableRef : List Char → Option (List Char)
  | [] => none
  | l@(_ :: rest) =>
    match matchTableRefAt l with
    | some m => some m
    | none => findTableRef rest

/-- One extracted table (rows of cells) from the external `pdfplumber`
capability. -/
abbrev PdfTable := List (List (Option String))

/-- The rendered text of one extracted table: header row, `---` separator
row, and the data rows, each pipe-joined, newline-separated. -/
def tableText (table : PdfTable) : String :=
  joinSep "\n" ([joinSep " | " ((table.headD []).map tableCellStr),
    joinSep " | " (List.replicate ((table.headD []).map tableCellStr).length "---")] ++
    (table.tail.map (fun row => joinSep " | " (row.map tableCellStr))))

/-- The table label: the page's caption match, else the synthetic
`Table-P<page>-T<idx>`. -/
def tableLabel (page_num t_idx : Nat) (plumberText : String) : String :=
  match findTableRef plumberText.data with
  | some m => String.mk m
  | none => "Table-P" ++ toString (page_num + 1) ++ "-T" ++ toString (t_idx + 1)

/-- The table-to-clause conversion inside `parse_pdf`: skip tables with
fewer than two rows, keep tables whose stripped rendered text exceeds 30
characters, label from the caption search or the synthetic fallback,
severity `DATA`. -/
def tableToClause (page_num t_idx : Nat) (plumberText : String)
    (table : PdfTable) : Option RawClause :=
  if table.length < 2 then none
  else
    if 30 < (pyStrip (tableText table)).data.length then
      some ⟨"TBL-" ++ toString (page_num + 1) ++ "-" ++ toString (t_idx + 1),
            tableLabel page_num t_idx plumberText ++ ":\n" ++ tableText table,
            page_num + 1, "DATA"⟩
    else none

/-- One PDF page as handed over by the external extractors: the
`pdfplumber` page text (caption search), the `pypdf` page text (clause
scan), and the extracted tables. -/
structure PageInput where
  plumberText : Option String
  pypdfText : Option String
  tables : List PdfTable
deriving DecidableEq

/-- First alternative of the clause-marker regex: `\d+\.[\d\.]+`. -/
def markerAlt1 (l : List Char) : Option (List Char) :=
  let d1 := l.takeWhile Char.isDigit
  if d1.isEmpty then none
  else
    match l.drop d1.length with
    | '.' :: r2 =>
      let d2 := r2.takeWhile (fun c => c.isDigit || c == '.')
      if d2.isEmpty then none else some (d1 ++ '.' :: d2)
    | _ => none

/-- Second alternative: `[A-Z]\.[\d\.]+`. -/
def markerAlt2 (l : List Char) : Option (List Char) :=
  match l with
  | c :: '.' :: r2 =>
    if 'A' ≤ c ∧ c ≤ 'Z' then
      let d2 := r2.takeWhile (fun ch => ch.isDigit || ch == '.')
      if d2.isEmpty then none else some (c :: '.' :: d2)
    else none
  | _ => none

/-- Third alternative: `Article\s+\d+:?`. -/
def markerAlt3 (l : List Char) : Option (List Char) :=
  if "Article".data.isPrefixOf l then
    let rest := l.drop 7
    let ws := rest.takeWhile Char.isWhitespace
    if ws.isEmpty then none
    else
      let r2 := rest.drop ws.length
      let digs := r2.takeWhile Char.isDigit
      if digs.isEmpty then none
      else
        let colon := match r2.drop digs.length with
          | ':' :: _ => [':']
          | _ => []
        some ("Article".data ++ ws ++ digs ++ colon)
  else none

/-- Group 1 of the clause-marker regex (alternatives in source order; each
alternative is backtracking-free because its greedy runs end at disjoint
follower classes). -/
def markerGroup (l : List Char) : Option (List Char) :=
  match markerAlt1 l with
  | some g => some g
  | none =>
    match markerAlt2 l with
    | some g => some g
    | none => markerAlt3 l

/-- A full regex match at a line start: group 1, then mandatory `\s+`
(which may run across newlines), then `(.*)` to the end of the line.
Returns group 1 and the total match length. -/
def pdfMarkerAt (l : List Char) : Option (List Char × Nat) :=
  match markerGroup l with
  | none => none
  | some g =>
    let rest := l.drop g.length
    let ws := rest.takeWhile Char.isWhitespace
    if ws.isEmpty then none
    else
      let content := (rest.drop ws.length).takeWhile (fun c => ¬ c == '\n')
      some (g, g.length + ws.length + content.length)

/-- `re.finditer` for the multiline clause-marker pattern: scan left to
right, only at line starts, continuing after each match's end; returns
`(absolute start, group 1)` pairs.  The fuel argument only bounds the
number of scan steps so that the recursion is structural (each step
consumes at least one character, so `length + 1` fuel is never
exhausted). -/
def pdfScan : Nat → List Char → Bool → Nat → List (Nat × List Char)
  | 0, _, _, _ => []
  | _ + 1, [], _, _ => []
  | fuel + 1, c :: rest, atLineStart, pos =>
    if atLineStart then
      match pdfMarkerAt (c :: rest) with
      | some (g, mlen) =>
        (pos, g) :: pdfScan fuel ((c :: rest).drop mlen)
          (((c :: rest).take mlen).getLast? == some '\n') (pos + mlen)
      | none => pdfScan fuel rest (c == '\n') (pos + 1)
    else pdfScan fuel rest (c == '\n') (pos + 1)

/-- `list(re.finditer(pattern, page_text))` of `parse_pdf`. -/
def pdfFindMatches (cs : List Char) : List (Nat × List Char) :=
  pdfScan (cs.length + 1) cs true 0

/-- Python `page_text.split("\n\n")`. -/
def splitDNL : List Char → List (List Char)
  | [] => [[]]
  | '\n' :: '\n' :: rest => [] :: splitDNL rest
  | c :: rest =>
    match splitDNL rest with
    | [] => [[c]]
    | g :: gs => (c :: g) :: gs

/-- The structured-clause builder of `parse_pdf`: clause `i` spans from its
match start to the next match start (or page end); `clause_id` is the
stripped group 1; severity from shall/must. -/
def buildPdfClauses (cs : List Char) (page_num : Nat) :
    List (Nat × List Char) → List RawClause
  | [] => []
  | [m] =>
    let text := String.mk (pyStripL ((cs.drop m.1).take (cs.length - m.1)))
    [⟨String.mk (pyStripL m.2), text, page_num + 1,
      if shallMust text then "MUST" else "SHOULD"⟩]
  | m :: m2 :: rest =>
    let text := String.mk (pyStripL ((cs.drop m.1).take (m2.1 - m.1)))
    ⟨String.mk (pyStripL m.2), text, page_num + 1,
      if shallMust text then "MUST" else "SHOULD"⟩ :: buildPdfClauses cs page_num (m2 :: rest)

/-- The per-page text phase of `parse_pdf`: skip pages whose extracted text
is absent or empty; fallback to blank-line paragraphs (`P-<page>-<i>`,
severity `UNKNOWN`, length filter 20) when no marker matches; otherwise the
structured clauses. -/
def pdfTextClausesPage (page_num : Nat) (pg : PageInput) : List RawClause :=
  match pg.pypdfText with
  | none => []
  | some txt =>
    if txt.data.isEmpty then []
    else
      match pdfFindMatches txt.data with
      | [] =>
        ((splitDNL txt.data).enum.filterMap (fun pp =>
          if 20 < (pyStripL pp.2).length then
            some ⟨"P-" ++ toString page_num ++ "-" ++ toString pp.1,
                  String.mk (pyStripL pp.2), page_num + 1, "UNKNOWN"⟩
          else none))
      | ms => buildPdfClauses txt.data page_num ms

/-- The table phase of `parse_pdf` (all pages, in page order, tables
enumerated per page before filtering). -/
def pdfTableClauses (pages : List PageInput) : List RawClause :=
  (pages.enum.map (fun pp =>
    (pp.2.tables.enum.filterMap (fun tt =>
      tableToClause pp.1 tt.1 (pp.2.plumberText.getD "") tt.2)))).flatten

/-- `ingestion.parse_pdf` (after the external extractions): table clauses
for every page first, then the per-page text clauses. -/
def parse_pdf (pages : List PageInput) : List RawClause :=
  pdfTableClauses pages ++ (pages.enum.map (fun pp => pdfTextClausesPage pp.1 pp.2)).flatten

/-- Loop body of `ingestion.chunk_text`: emit `text[start:start+size]` and
step by `size - overlap` while `start < len(text)`.  The fuel argument only
makes the recursion structural; with the source's parameters
(`overlap < size`) each step advances `start` by at least one character, so
`length + 1` fuel is never exhausted. -/
def chunkAux : Nat → List Char → Nat → Nat → Nat → List (List Char)
  | 0, _, _, _, _ => []
  | fuel + 1, text, size, overlap, start =>
    if start < text.length then
      (text.drop start).take size :: chunkAux fuel text size overlap (start + (size - overlap))
    else []

/-- `ingestion.chunk_text` (defaults `chunk_size=800`, `chunk_overlap=150`). -/
def chunk_text (text : List Char) (size overlap : Nat) : List (List Char) :=
  if text.isEmpty then [] else chunkAux (text.length + 1) text size overlap 0

/-- The embedding pieces built for one stored clause inside
`parse_document`: texts longer than 2500 characters are windowed by
`chunk_text` into parts named `<clauseId>-part<k>` (k from 1); shorter
texts go as a single unsplit piece under the original id. -/
def ingestPiecesOf (doc_id : Nat) (filename : String) (c : RawClause) :
    List IngestRec :=
  if 2500 < c.text.data.length then
    ((chunk_text c.text.data 800 150).enum.map (fun p =>
      ⟨c.clause_id ++ "-part" ++ toString (p.1 + 1), doc_id, some filename,
       String.mk p.2, c.page_number⟩))
  else
    [⟨c.clause_id, doc_id, some filename, c.text, c.page_number⟩]

/-- The body of `ingestion.parse_document` after the per-format parser
dispatch (the parser's `raw_clauses` are the input): add the document, then
for each raw clause add the *unsplit* structured record to the store and
append its embedding pieces; finally ingest the nonempty piece list into
the vector engine.  Returns `(doc_id, chunk_count)` with the final store
and engine. -/
def parse_document_core (raw_clauses : List RawClause) (st : Store)
    (eng : RAGState) (sid : String) (filename file_type version : String)
    (nsArg : Option String) (now : Nat) :
    (Nat × Nat) × Store × RAGState :=
  let (doc, st1) := add_document st sid filename file_type version now
  let step := fun (acc : Store × List IngestRec) (c : RawClause) =>
    let (_, st') := add_clause acc.1 sid doc.id c.clause_id c.text c.page_number c.severity now
    (st', acc.2 ++ ingestPiecesOf doc.id filename c)
  let (st2, ingest_clauses) := raw_clauses.foldl step (st1, [])
  let chunk_count := ingest_clauses.length
  let eng' := ingest_documents eng ingest_clauses (some sid) nsArg
  ((doc.id, chunk_count), st2, eng')

/-! ### `main.py` — the delete-document route and the chat controller -/

/-- The `/documents/{doc_id}` DELETE route (`main.delete_document`): 404 on
an unknown id; otherwise delete every assessment referencing the document
(each cascading to its results), then the document and its clauses. -/
def delete_document_route (st : Store) (sid : String) (doc_id : Nat) (now : Nat) :
    Except String String × Store :=
  let res := get_document st sid doc_id now
  match res.1 with
  | none => (.error "Document not found", res.2)
  | some _ =>
    let resA := get_assessments_by_doc res.2 sid doc_id now
    let st3 := resA.1.foldl (fun s a => delete_assessment s sid a.id now) resA.2
    (.ok "Document deleted", (store_delete_document st3 sid doc_id now).2)

/-- `page_content[:200].replace("\n", " ").replace("\r", "")` for a source
reference snippet. -/
def chatSnippet (s : String) : String :=
  String.mk ((s.data.take 200).filterMap (fun c =>
    if c == '\r' then none else if c == '\n' then some ' ' else some c))

/-- Loop of `build_context` inside `chat_with_docs`: per scored result,
resolve the uploaded document (a truthy numeric `doc_id` triggers an actual
store lookup; a non-numeric one raises `ValueError`), format the `REF`
block and the source-list line.  Returns the accumulated parts and refs. -/
def buildContextAux (sid label : String) (now : Nat) :
    List (VRec × ℚ) → Nat → Store →
    Except String ((List String × List String) × Store)
  | [], _, st => .ok (([], []), st)
  | p :: rest, i, st =>
    let d := p.1
    let docLookup : Except String (Option Document × Store) :=
      match d.metadata.doc_id with
      | none => .ok (none, st)
      | some ds =>
        if ds.isEmpty then .ok (none, st)
        else
          match ds.toNat? with
          | none => .error "ValueError: invalid literal for int()"
          | some n => .ok (get_document st sid n now)
    match docLookup with
    | .error e => .error e
    | .ok (doc_obj, st1) =>
      let doc_name := match doc_obj with
        | some doc => doc.filename
        | none => d.metadata.doc_name.getD "Unknown"
      let cid := d.metadata.clause_id.getD "N/A"
      let page := match d.metadata.page_number with
        | some n => toString n
        | none => "N/A"
      let part := "REF [" ++ label ++ " " ++ toString i ++ "]:\n" ++
        "File: " ++ doc_name ++ " | Clause: " ++ cid ++ " | Page: " ++ page ++ "\n" ++
        "Content: " ++ d.text
      let ref := "- [" ++ label ++ "] File: " ++ doc_name ++ " | Clause: " ++ cid ++
        " | Page: " ++ page ++ " ||| " ++ chatSnippet d.text
      match buildContextAux sid label now rest (i + 1) st1 with
      | .error e => .error e
      | .ok ((parts, refs), st2) => .ok ((part :: parts, ref :: refs), st2)

/-- `build_context(results, label)`: the joined context string and the
joined refs string. -/
def build_context (st : Store) (sid : String) (now : Nat)
    (results : List (VRec × ℚ)) (label : String) :
    Except String ((String × String) × Store) :=
  match buildContextAux sid label now results 1 st with
  | .error e => .error e
  | .ok ((parts, refs), st') => .ok ((joinSep "\n\n---\n\n" parts, joinSep "\n" refs), st')

/-- The LLM-backed capabilities invoked by the chat controller; each call
is recorded in the invocation trace of `chat_with_docs`. -/
structure ChatOracles where
  answer_from_source : String → String → String → List ChatMsg → String
  synthesize_responses : String → String → String → String → String → String
  answer_general_question : String → String → List ChatMsg → String

/-- The fixed no-results guidance message of `/chat`. -/
def chatNoResultsMsg : String :=
  "I couldn\x27t find any relevant information. Please upload some documents or enable the Knowledge Base to get started."

/-- The `/chat` route (`main.chat_with_docs`): retrieve with `top_k=20`,
split results into `KB` and non-`KB`, and follow the source's branch
structure (empty-retrieval guidance/history fallback; dual-retrieval with
synthesis; single-source paths with the `NO_RELEVANT_INFO` sentinel).
Returns the answer, the ordered trace of LLM-capability invocations, and
the final store. -/
def chat_with_docs (search : SearchFn) (eng : RAGState) (o : ChatOracles)
    (st : Store) (sid : String) (query : String) (use_kb : Bool) (now : Nat) :
    Except String (String × List String × Store) :=
  let history := (get_history st sid now).1
  let st2 := (get_all_documents (get_history st sid now).2 sid now).2
  let similar_docs := retrieve_similar_clauses search eng query 20 use_kb (some sid) none
  let kb_results := similar_docs.filter (fun p => p.1.metadata.source_type == some "KB")
  let doc_results := similar_docs.filter (fun p => ¬ p.1.metadata.source_type == some "KB")
  if similar_docs.isEmpty then
    if !history.isEmpty then
      let answer := o.answer_general_question query "No document context available." history
      let st3 := add_history_message st2 sid "user" query now
      let st4 := add_history_message st3 sid "bot" answer now
      .ok (answer, ["answer_general_question"], st4)
    else
      .ok (chatNoResultsMsg, [], st2)
  else
    match (if kb_results.isEmpty then .ok (("", ""), st2)
           else build_context st2 sid now kb_results "KB") with
    | .error e => .error e
    | .ok ((kb_context, kb_refs), st3) =>
      match (if doc_results.isEmpty then .ok (("", ""), st3)
             else build_context st3 sid now doc_results "DOC") with
      | .error e => .error e
      | .ok ((doc_context, doc_refs), st4) =>
        let (answer, calls) :=
          if !kb_results.isEmpty && !doc_results.isEmpty then
            let kb_answer := o.answer_from_source query kb_context "KNOWLEDGE BASE" history
            let doc_answer := o.answer_from_source query doc_context "UPLOADED DOCUMENT" history
            let kb_has := !pyContains "NO_RELEVANT_INFO" kb_answer
            let doc_has := !pyContains "NO_RELEVANT_INFO" doc_answer
            if kb_has && doc_has then
              (o.synthesize_responses query kb_answer doc_answer kb_refs doc_refs,
               ["answer_from_source", "answer_from_source", "synthesize_responses"])
            else if kb_has then
              (kb_answer ++ "\n\nSOURCES:\n" ++ kb_refs,
               ["answer_from_source", "answer_from_source"])
            else if doc_has then
              (doc_answer ++ "\n\nSOURCES:\n" ++ doc_refs,
               ["answer_from_source", "answer_from_source"])
            else
              (o.answer_general_question query "No relevant context found." history,
               ["answer_from_source", "answer_from_source", "answer_general_question"])
          else if !kb_results.isEmpty then
            let answer0 := o.answer_from_source query kb_context "KNOWLEDGE BASE" history
            if !pyContains "NO_RELEVANT_INFO" answer0 then
              (answer0 ++ "\n\nSOURCES:\n" ++ kb_refs, ["answer_from_source"])
            else
              (o.answer_general_question query "No relevant context found." history,
               ["answer_from_source", "answer_general_question"])
          else
            let answer0 := o.answer_from_source query doc_context "UPLOADED DOCUMENT" history
            if !pyContains "NO_RELEVANT_INFO" answer0 then
              (answer0 ++ "\n\nSOURCES:\n" ++ doc_refs, ["answer_from_source"])
            else
              (o.answer_general_question query "No relevant context found." history,
               ["answer_from_source", "answer_general_question"])
        let st5 := add_history_message st4 sid "user" query now
        let st6 := add_history_message st5 sid "bot" answer now
        .ok (answer, calls, st6)

/-! ### Statement-side definitions (read-only views and the spec's formulas) -/

/-- The documents of a session as currently stored (empty if absent). -/
def docsOf (st : Store) (sid : String) : List Document :=
  ((sessionFind st sid).map (·.documents)).getD []

/-- The clauses of a session as currently stored. -/
def clausesOf (st : Store) (sid : String) : List Clause :=
  ((sessionFind st sid).map (·.clauses)).getD []

/-- The assessments of a session as currently stored. -/
def assessmentsOf (st : Store) (sid : String) : List Assessment :=
  ((sessionFind st sid).map (·.assessments)).getD []

/-- The assessment results of a session as currently stored. -/
def resultsOf (st : Store) (sid : String) : List AssessmentResult :=
  ((sessionFind st sid).map (·.assessment_results)).getD []

/-- The conversation history of a session as currently stored. -/
def historyOf (st : Store) (sid : String) : List ChatMsg :=
  ((sessionFind st sid).map (·.history)).getD []

/-- The `last_activity` tick of a session, if present. -/
def lastActivityOf (st : Store) (sid : String) : Option Nat :=
  (sessionFind st sid).map (·.last_activity)

/-- The session's assessment counter as currently stored. -/
def assessmentCounterOf (st : Store) (sid : String) : Nat :=
  ((sessionFind st sid).map (·.assessment_counter)).getD 0

/-- The session's result counter as currently stored. -/
def resultCounterOf (st : Store) (sid : String) : Nat :=
  ((sessionFind st sid).map (·.result_counter)).getD 0

/-- The claim's composite key as a genuine triple
`(sourceType, docName, clauseId)` (with the metadata defaults the code
uses), for comparison with the string key `rrfKey` the code builds. -/
def tripleKey (d : VRec) : String × String × String :=
  (d.metadata.source_type.getD "UNKNOWN",
   d.metadata.doc_name.getD "Unknown",
   d.metadata.clause_id.getD "Unknown")

/-- Spec-side score: the contribution of one source to a key, summing
`w * 1/(k + rank + 1)` over every occurrence of the key in the source
(`rank0` is the rank of the source's head). -/
def specContrib (k w : ℚ) (key : String) : Nat → List (VRec × ℚ) → ℚ
  | _, [] => 0
  | rank, p :: rest =>
    (if rrfKey p.1 = key then w * (1 / (k + rank + 1)) else 0) +
      specContrib k w key (rank + 1) rest

/-- Spec-side fused score of a key: sum of the per-source contributions,
sources weighted by their index. -/
def specScore (k : ℚ) (ws : List ℚ) (key : String) : Nat → List (List (VRec × ℚ)) → ℚ
  | _, [] => 0
  | i, src :: rest =>
    specContrib k (rrfWeight ws i) key 0 src + specScore k ws key (i + 1) rest

/-- The rank of a key inside one source (first occurrence), as in the
claim's `rank_in_source`. -/
def srcRank (key : String) (src : List (VRec × ℚ)) : Option Nat :=
  src.findIdx? (fun p => rrfKey p.1 == key)

/-- The claim's formula verbatim: sum over the sources *containing* the
key of `weight[source] * 1/(K + rank_in_source + 1)`. -/
def claimScore (k : ℚ) (ws : List ℚ) (key : String) : Nat → List (List (VRec × ℚ)) → ℚ
  | _, [] => 0
  | i, src :: rest =>
    (match srcRank key src with
     | none => 0
     | some r => rrfWeight ws i * (1 / (k + r + 1))) + claimScore k ws key (i + 1) rest

/-- First-seen de-duplicated key order over a record stream. -/
def keysAfter (ks : List String) : List VRec → List String
  | [] => ks
  | d :: rest =>
    if rrfKey d ∈ ks then keysAfter ks rest else keysAfter (ks ++ [rrfKey d]) rest

/-- The first-seen order of composite keys across the source lists. -/
def firstSeenKeys (lists : List (List (VRec × ℚ))) : List String :=
  keysAfter [] ((lists.map (fun src => src.map (·.1))).flatten)

/-- The pure top-hit pipeline of `process_clause` (no store touch):
retrieval head, its `clause_id` metadata, and the regulation-clause record
looked up in the session's current clause table. -/
def clausePipeline (retr : RetrieveFn) (st : Store) (sid : String)
    (regulation_doc_id : Nat) (c : Clause) : Option (VRec × Clause) :=
  match retr c.text with
  | [] => none
  | best :: _ =>
    match best.1.metadata.clause_id with
    | none => none
    | some key =>
      ((clausesOf st sid).find? (fun rc =>
        rc.document_id == regulation_doc_id && rc.clause_id == key)).map
        (fun rc => (best.1, rc))

/-! ### Concrete inputs for counterexamples and witnesses -/

/-- Modelled from the spec: the external top-k similarity-search capability
(`similarity_search_with_score`) instantiated as "first `min(k, _)` stored
records, unit score" — a legitimate behaviour of a top-k search, and the
only fact the counterexamples need is that a stored record can be returned. -/
def searchModel : SearchFn := fun col _ k => (col.take k).map (fun v => (v, 1))

/-- A record whose triple key is `("DOC", "a", "b_c")`. -/
def vC1a : VRec := ⟨"text one", ⟨some "DOC", some "a", some "b_c", none, none⟩⟩

/-- A record whose triple key is `("DOC", "a_b", "c")` — distinct from
`vC1a`'s triple, but with the same joined string key `DOC_a_b_c`. -/
def vC1b : VRec := ⟨"text two", ⟨some "DOC", some "a_b", some "c", none, none⟩⟩

/-- Three-record fusion input for the C1 witness: two sources sharing one
key. -/
def vW1 : VRec := ⟨"w1", ⟨some "KB", some "d", some "1.1", none, none⟩⟩

/-- Second witness record. -/
def vW2 : VRec := ⟨"w2", ⟨some "DOC", some "d", some "1.2", none, none⟩⟩

/-- Third witness record: same composite key as `vW1`. -/
def vW3 : VRec := ⟨"w3", ⟨some "KB", some "d", some "1.1", none, none⟩⟩

/-- Modelled from the spec: `json.loads` at the single input the C2
counterexample feeds it — the incomplete object `{"status": "COMPLIANT"}`. -/
def jsonModelC2 : JsonLoads := fun s =>
  if s = "\x7b\"status\": \"COMPLIANT\"\x7d" then .ok [("status", .s "COMPLIANT")]
  else .error "unmodelled input"

/-- The retrieved regulation vector record for the C2 scenario. -/
def vrecC2 : VRec := ⟨"X must be grounded.", ⟨some "DOC", some "reg.pdf", some "1.1", some "2", some 1⟩⟩

/-- C2 scenario store: one session `s` with a one-clause customer document
(id 1) and a one-clause regulation document (id 2). -/
def stC2 : Store :=
  [("s", ⟨[⟨1, "cust.pdf", "customer", "1.0", 0⟩, ⟨2, "reg.pdf", "regulation", "1.0", 0⟩],
          [⟨1, 1, "A.1", "The device is grounded.", 1, "UNKNOWN"⟩,
           ⟨2, 2, "1.1", "X must be grounded.", 1, "MUST"⟩],
          [], [], [], 2, 2, 0, 0, 0⟩)]

/-- C2 retrieval: the top (and only) hit is the regulation record. -/
def retrC2 : RetrieveFn := fun _ => [(vrecC2, 1)]

/-- C2 judgment capability: returns the incomplete JSON object. -/
def judgeC2 : JudgeFn := fun _ _ => .ok "\x7b\"status\": \"COMPLIANT\"\x7d"

/-- C2 judgment capability that raises. -/
def judgeErr : JudgeFn := fun _ _ => .error "boom"

/-- An unused JSON capability for scenarios that never parse. -/
def jsonNone : JsonLoads := fun _ => .error "unused"

/-- An empty-retrieval capability. -/
def retrEmpty : RetrieveFn := fun _ => []

/-- C3 scenario store: session `s` holds a clauseless customer document
(id 1) and `last_activity = 0`. -/
def stC3 : Store := [("s", ⟨[⟨1, "cust.pdf", "customer", "1.0", 0⟩], [], [], [], [], 1, 0, 0, 0, 0⟩)]

/-- The record ingested under session `A` in the C4 counterexample. -/
def ingC4 : IngestRec := ⟨"1.1", 1, some "a.pdf", "alpha clause text", 1⟩

/-- A fresh FAISS-fallback engine (Pinecone unconfigured, nothing ingested). -/
def engFaiss0 : RAGState := ⟨false, [], none⟩

/-- A vector record living in namespace `session_A` of the Pinecone-mode
witness engine. -/
def vrecA : VRec := ⟨"A text", ⟨none, some "a.pdf", some "1.1", some "1", some 1⟩⟩

/-- A vector record living in namespace `session_B` of the Pinecone-mode
witness engine. -/
def vrecB : VRec := ⟨"B text", ⟨none, some "b.pdf", some "2.2", some "2", some 1⟩⟩

/-- A Pinecone-mode engine with one record in each of two session
namespaces. -/
def engPine : RAGState := ⟨true, [("session_A", [vrecA]), ("session_B", [vrecB])], none⟩

/-- C5 workbook: a single sheet with one long keyword-free row. -/
def wbC5 : Workbook := [("Sheet1", [[some "alpha beta gamma delta row"]])]

/-- C5 PDF input: one page whose text is a structured clause containing
`required` but neither `shall` nor `must`. -/
def pagesC5 : List PageInput := [⟨none, some "1.1 Grounding is required.", []⟩]

/-- A clause of 2600 characters for the C6 witness. -/
def rawC6long : RawClause := ⟨"1.1", String.mk (List.replicate 2600 'a'), 1, "MUST"⟩

/-- A short clause for the C6 witness. -/
def rawC6short : RawClause := ⟨"1.2", "Y shall be insulated.", 1, "MUST"⟩

/-- C7 scenario store: document 1 with a clause, an assessment referencing
it (with a result), and an unrelated assessment (with a result). -/
def stC7 : Store :=
  [("s", ⟨[⟨1, "a.pdf", "customer", "1.0", 0⟩, ⟨2, "b.pdf", "regulation", "1.0", 0⟩,
           ⟨3, "c.pdf", "regulation", "1.0", 0⟩],
          [⟨1, 1, "A.1", "alpha", 1, "MUST"⟩, ⟨2, 2, "1.1", "beta", 1, "MUST"⟩],
          [⟨1, 1, 2, 0⟩, ⟨2, 2, 3, 0⟩],
          [⟨1, 1, 1, 2, .s "COMPLIANT", .s "LOW", .s "ok", .s "ev", .n 1⟩,
           ⟨2, 2, 2, 2, .s "PARTIAL", .s "LOW", .s "ok", .s "ev", .n 1⟩],
          [], 3, 2, 2, 2, 0⟩)]

/-- C8 scenario store: session `s` with a nonempty conversation history. -/
def stC8 : Store := [("s", ⟨[], [], [], [], [⟨"user", "hi"⟩], 0, 0, 0, 0, 0⟩)]

/-- C8 oracles: the general-knowledge call returns a distinguishable
answer. -/
def oraclesC8 : ChatOracles :=
  ⟨fun _ _ _ _ => "SRC", fun _ _ _ _ _ => "SYN", fun _ _ _ => "GENERAL"⟩

/-- The weighted contribution stream of one source: record paired with its
RRF contribution `w * 1/(k + rank + 1)`. -/
def wTag (k w : ℚ) : Nat → List (VRec × ℚ) → List (VRec × ℚ)
  | _, [] => []
  | rank, p :: rest => (p.1, w * (1 / (k + rank + 1))) :: wTag k w (rank + 1) rest

/-- The weighted contribution stream of all sources in iteration order. -/
def wStream (k : ℚ) (ws : List ℚ) : Nat → List (List (VRec × ℚ)) → List (VRec × ℚ)
  | _, [] => []
  | i, src :: rest => wTag k (rrfWeight ws i) 0 src ++ wStream k ws (i + 1) rest

/-- Folding the dict-update step over a contribution stream. -/
def rrfFold (f : List FusedEntry) : List (VRec × ℚ) → List FusedEntry
  | [] => f
  | dc :: rest => rrfFold (rrfUpsert f (rrfKey dc.1) dc.1 dc.2) rest

/-- Total contribution of the stream entries carrying a given key. -/
def contribSum (key : String) : List (VRec × ℚ) → ℚ
  | [] => 0
  | dc :: rest => (if rrfKey dc.1 = key then dc.2 else 0) + contribSum key rest

/-- The last record with a given composite key in a record stream. -/
def lastDocFor (key : String) (ds : List VRec) : Option VRec :=
  (ds.filter (fun d => rrfKey d == key)).getLast?

/-- All records of all sources in iteration order. -/
def allSrcDocs (lists : List (List (VRec × ℚ))) : List VRec :=
  (lists.map (fun src => src.map (·.1))).flatten

/-! ### Store lemmas -/

theorem sessionFind_nil (sid : String) : sessionFind [] sid = none := rfl

theorem sessionFind_cons (k : String) (v : SessionData) (tl : Store) (sid : String) :
    sessionFind ((k, v) :: tl) sid = if k = sid then some v else sessionFind tl sid := by
  by_cases h : k = sid <;> simp [sessionFind, List.find?_cons, h]

theorem setSession_cons (k : String) (v : SessionData) (tl : Store) (sid : String)
    (s : SessionData) :
    setSession ((k, v) :: tl) sid s =
      (if k = sid then (k, s) else (k, v)) :: setSession tl sid s := by
  by_cases h : k = sid <;> simp [setSession, h]

theorem sessionFind_setSession (st : Store) (sid : String) (s : SessionData)
    (sid' : String) :
    sessionFind (setSession st sid s) sid' =
      if sid' = sid then (sessionFind st sid).map (fun _ => s)
      else sessionFind st sid' := by
  induction st with
  | nil => by_cases h : sid' = sid <;> simp [sessionFind, setSession, h]
  | cons hd tl ih =>
    obtain ⟨k, v⟩ := hd
    rw [setSession_cons]
    by_cases hk : k = sid
    · subst hk
      by_cases h2 : sid' = k
      · subst h2; simp [sessionFind_cons]
      · simp [sessionFind_cons, h2, Ne.symm h2, ih]
    · by_cases h2 : sid' = k
      · subst h2
        have hks : ¬ sid' = sid := fun h => hk (by rw [← h])
        simp [hk, sessionFind_cons, hks]
      · by_cases h3 : sid' = sid
        · subst h3; simp [hk, sessionFind_cons, Ne.symm h2, ih]
        · simp [hk, sessionFind_cons, Ne.symm h2, ih, h3]

theorem sessionFind_append_single (st : Store) (sid : String) (s : SessionData)
    (sid' : String) :
    sessionFind (st ++ [(sid, s)]) sid' =
      match sessionFind st sid' with
      | some a => some a
      | none => if sid' = sid then some s else none := by
  induction st with
  | nil =>
    by_cases h : sid' = sid
    · subst h; simp [sessionFind]
    · simp [sessionFind, h, Ne.symm h]
  | cons hd tl ih =>
    obtain ⟨k, v⟩ := hd
    by_cases h1 : k = sid' <;> simp [List.cons_append, sessionFind_cons, h1, ih]

theorem get_session_fst (st : Store) (sid : String) (now : Nat) :
    (get_session st sid now).1 = touchSession st sid now := by
  cases h : sessionFind st sid <;> simp [get_session, touchSession, h]

theorem get_session_snd_self (st : Store) (sid : String) (now : Nat) :
    sessionFind (get_session st sid now).2 sid = some (touchSession st sid now) := by
  cases h : sessionFind st sid with
  | some s =>
    have hst : (get_session st sid now).2 = setSession st sid { s with last_activity := now } := by
      simp [get_session, setSession, h]
    rw [hst, sessionFind_setSession]
    simp [touchSession, h]
  | none =>
    have hst : (get_session st sid now).2 = st ++ [(sid, emptySession now)] := by
      simp [get_session, h]
    rw [hst, sessionFind_append_single]
    simp [touchSession, h]

theorem get_session_snd_other (st : Store) (sid : String) (now : Nat)
    (sid' : String) (hne : sid' ≠ sid) :
    sessionFind (get_session st sid now).2 sid' = sessionFind st sid' := by
  cases h : sessionFind st sid with
  | some s =>
    have hst : (get_session st sid now).2 = setSession st sid { s with last_activity := now } := by
      simp [get_session, setSession, h]
    rw [hst, sessionFind_setSession]; simp [hne]
  | none =>
    have hst : (get_session st sid now).2 = st ++ [(sid, emptySession now)] := by
      simp [get_session, h]
    rw [hst, sessionFind_append_single]
    cases hf : sessionFind st sid' <;> simp [hne]

theorem withSession_fst (st : Store) (sid : String) (now : Nat)
    (f : SessionData → α × SessionData) :
    (withSession st sid now f).1 = (f (touchSession st sid now)).1 := by
  simp [withSession, get_session_fst]

theorem withSession_snd_self (st : Store) (sid : String) (now : Nat)
    (f : SessionData → α × SessionData) :
    sessionFind (withSession st sid now f).2 sid =
      some (f (touchSession st sid now)).2 := by
  simp [withSession, sessionFind_setSession, get_session_snd_self, get_session_fst]

theorem withSession_snd_other (st : Store) (sid : String) (now : Nat)
    (f : SessionData → α × SessionData) (sid' : String) (hne : sid' ≠ sid) :
    sessionFind (withSession st sid now f).2 sid' = sessionFind st sid' := by
  simp [withSession, sessionFind_setSession, hne, get_session_snd_other st sid now sid' hne]

theorem touchSession_documents (st : Store) (sid : String) (now : Nat) :
    (touchSession st sid now).documents = docsOf st sid := by
  cases h : sessionFind st sid <;> simp [touchSession, docsOf, h, emptySession]

theorem touchSession_clauses (st : Store) (sid : String) (now : Nat) :
    (touchSession st sid now).clauses = clausesOf st sid := by
  cases h : sessionFind st sid <;> simp [touchSession, clausesOf, h, emptySession]

theorem touchSession_assessments (st : Store) (sid : String) (now : Nat) :
    (touchSession st sid now).assessments = assessmentsOf st sid := by
  cases h : sessionFind st sid <;> simp [touchSession, assessmentsOf, h, emptySession]

theorem touchSession_results (st : Store) (sid : String) (now : Nat) :
    (touchSession st sid now).assessment_results = resultsOf st sid := by
  cases h : sessionFind st sid <;> simp [touchSession, resultsOf, h, emptySession]

theorem touchSession_history (st : Store) (sid : String) (now : Nat) :
    (touchSession st sid now).history = historyOf st sid := by
  cases h : sessionFind st sid <;> simp [touchSession, historyOf, h, emptySession]

theorem touchSession_last_activity (st : Store) (sid : String) (now : Nat) :
    (touchSession st sid now).last_activity = now := by
  cases h : sessionFind st sid <;> simp [touchSession, h, emptySession]

theorem sessionFind_store_reset_self (st : Store) (sid : String) :
    sessionFind (store_reset st sid) sid = none := by
  induction st with
  | nil => simp [sessionFind, store_reset]
  | cons hd tl ih =>
    obtain ⟨k, v⟩ := hd
    by_cases h : k = sid <;>
      simp_all [store_reset, List.filter_cons, sessionFind_cons, h]

/-- Claim C10: every per-session store operation (the CRUD operations of
`InMemoryStore`, read-only lookups included) first resolves the session via
`get_session` — silently creating a fresh empty session when the id is
unknown — and always stamps the session's `last_activity` with the current
time; lookups of absent entity ids return `none` rather than raising; and a
read against a just-evicted (`reset`) session resurrects it as an empty
session whose inactivity TTL restarts at the read's time. -/
theorem c10_session_touch_and_lookups (st : Store) (sid : String) (now : Nat) :
    (∀ fn ft v, lastActivityOf (add_document st sid fn ft v now).2 sid = some now) ∧
    (∀ d, lastActivityOf (get_document st sid d now).2 sid = some now) ∧
    (lastActivityOf (get_all_documents st sid now).2 sid = some now) ∧
    (∀ d, lastActivityOf (store_delete_document st sid d now).2 sid = some now) ∧
    (∀ did cid tx pn sv, lastActivityOf (add_clause st sid did cid tx pn sv now).2 sid = some now) ∧
    (∀ cid, lastActivityOf (get_clause st sid cid now).2 sid = some now) ∧
    (∀ d, lastActivityOf (get_clauses_by_document st sid d now).2 sid = some now) ∧
    (∀ d cs, lastActivityOf (get_clause_by_doc_and_clause_id st sid d cs now).2 sid = some now) ∧
    (∀ a b, lastActivityOf (add_assessment st sid a b now).2 sid = some now) ∧
    (∀ a, lastActivityOf (get_assessment st sid a now).2 sid = some now) ∧
    (∀ d, lastActivityOf (get_assessments_by_doc st sid d now).2 sid = some now) ∧
    (∀ aid c r j1 j2 j3 j4 j5, lastActivityOf (add_result st sid aid c r j1 j2 j3 j4 j5 now).2 sid = some now) ∧
    (∀ a, lastActivityOf (get_results_by_assessment st sid a now).2 sid = some now) ∧
    (∀ a, lastActivityOf (delete_results_by_assessment st sid a now).2 sid = some now) ∧
    (∀ a, lastActivityOf (delete_assessment st sid a now) sid = some now) ∧
    (∀ d, (∀ doc ∈ docsOf st sid, doc.id ≠ d) → (get_document st sid d now).1 = none) ∧
    (∀ cid, (∀ c ∈ clausesOf st sid, c.id ≠ cid) → (get_clause st sid cid now).1 = none) ∧
    (sessionFind st sid = none →
      sessionFind (get_document st sid 1 now).2 sid = some (emptySession now)) ∧
    ((get_document (store_reset st sid) sid 1 now).1 = none ∧
      sessionFind (get_document (store_reset st sid) sid 1 now).2 sid =
        some (emptySession now)) := by
  refine ⟨?_, ?_, ?_, ?_, ?_, ?_, ?_, ?_, ?_, ?_, ?_, ?_, ?_, ?_, ?_, ?_, ?_, ?_, ?_, ?_⟩
  · intro fn ft v
    simp [add_document, lastActivityOf, withSession_snd_self, touchSession_last_activity]
  · intro d
    simp [get_document, lastActivityOf, withSession_snd_self, touchSession_last_activity]
  · simp [get_all_documents, lastActivityOf, withSession_snd_self, touchSession_last_activity]
  · intro d
    simp only [store_delete_document, lastActivityOf, withSession_snd_self, Option.map_some]
    split <;> simp [touchSession_last_activity]
  · intro did cid tx pn sv
    simp [add_clause, lastActivityOf, withSession_snd_self, touchSession_last_activity]
  · intro cid
    simp [get_clause, lastActivityOf, withSession_snd_self, touchSession_last_activity]
  · intro d
    simp [get_clauses_by_document, lastActivityOf, withSession_snd_self, touchSession_last_activity]
  · intro d cs
    simp [get_clause_by_doc_and_clause_id, lastActivityOf, withSession_snd_self,
      touchSession_last_activity]
  · intro a b
    simp [add_assessment, lastActivityOf, withSession_snd_self, touchSession_last_activity]
  · intro a
    simp [get_assessment, lastActivityOf, withSession_snd_self, touchSession_last_activity]
  · intro d
    simp [get_assessments_by_doc, lastActivityOf, withSession_snd_self, touchSession_last_activity]
  · intro aid c r j1 j2 j3 j4 j5
    simp [add_result, lastActivityOf, withSession_snd_self, touchSession_last_activity]
  · intro a
    simp [get_results_by_assessment, lastActivityOf, withSession_snd_self,
      touchSession_last_activity]
  · intro a
    simp [delete_results_by_assessment, lastActivityOf, withSession_snd_self,
      touchSession_last_activity]
  · intro a
    simp [delete_assessment, delete_results_by_assessment, lastActivityOf,
      withSession_snd_self, touchSession_last_activity]
  · intro d hnone
    rw [get_document, withSession_fst]
    simp only [List.find?_eq_none]
    intro doc hmem
    rw [touchSession_documents] at hmem
    simpa using hnone doc hmem
  · intro cid hnone
    rw [get_clause, withSession_fst]
    simp only [List.find?_eq_none]
    intro c hmem
    rw [touchSession_clauses] at hmem
    simpa using hnone c hmem
  · intro hnone
    rw [get_document]
    rw [withSession_snd_self]
    simp [touchSession, hnone]
  · rw [get_document, withSession_fst]
    simp [touchSession, sessionFind_store_reset_self, emptySession]
  · rw [get_document, withSession_snd_self]
    simp [touchSession, sessionFind_store_reset_self]

/-- Witness for C10 at a concrete store: a lookup touches and stamps the
session; an unknown clause id yields `none`; a read after `reset`
returns `none` and resurrects the session empty with a fresh timestamp. -/
theorem c10_session_touch_and_lookups_witness :
    lastActivityOf (get_document stC3 "s" 1 7).2 "s" = some 7 ∧
    (get_clause stC3 "s" 42 7).1 = none ∧
    (get_document (store_reset stC3 "s") "s" 1 7).1 = none ∧
    sessionFind (get_document (store_reset stC3 "s") "s" 1 7).2 "s" =
      some (emptySession 7) := by
  obtain ⟨-, h2, -, -, -, -, -, -, -, -, -, -, -, -, -, -, h17, -, h19, h20⟩ :=
    c10_session_touch_and_lookups stC3 "s" 7
  exact ⟨h2 1, h17 42 (by decide), h19, h20⟩

/-! ### Component-preservation lemmas for the orchestrator -/

theorem withSession_docsOf (st : Store) (sid : String) (now : Nat)
    (f : SessionData → α × SessionData) (hf : ∀ s, ((f s).2).documents = s.documents)
    (sid'' : String) :
    docsOf (withSession st sid now f).2 sid'' = docsOf st sid'' := by
  by_cases h : sid'' = sid
  · subst h
    simp [docsOf, withSession_snd_self, hf, touchSession_documents]
  · simp [docsOf, withSession_snd_other st sid now f sid'' h]

theorem withSession_clausesOf (st : Store) (sid : String) (now : Nat)
    (f : SessionData → α × SessionData) (hf : ∀ s, ((f s).2).clauses = s.clauses)
    (sid'' : String) :
    clausesOf (withSession st sid now f).2 sid'' = clausesOf st sid'' := by
  by_cases h : sid'' = sid
  · subst h
    simp [clausesOf, withSession_snd_self, hf, touchSession_clauses]
  · simp [clausesOf, withSession_snd_other st sid now f sid'' h]

theorem withSession_assessmentsOf (st : Store) (sid : String) (now : Nat)
    (f : SessionData → α × SessionData)
    (hf : ∀ s, ((f s).2).assessments = s.assessments) (sid'' : String) :
    assessmentsOf (withSession st sid now f).2 sid'' = assessmentsOf st sid'' := by
  by_cases h : sid'' = sid
  · subst h
    simp [assessmentsOf, withSession_snd_self, hf, touchSession_assessments]
  · simp [assessmentsOf, withSession_snd_other st sid now f sid'' h]

theorem withSession_resultsOf (st : Store) (sid : String) (now : Nat)
    (f : SessionData → α × SessionData)
    (hf : ∀ s, ((f s).2).assessment_results = s.assessment_results) (sid'' : String) :
    resultsOf (withSession st sid now f).2 sid'' = resultsOf st sid'' := by
  by_cases h : sid'' = sid
  · subst h
    simp [resultsOf, withSession_snd_self, hf, touchSession_results]
  · simp [resultsOf, withSession_snd_other st sid now f sid'' h]

theorem get_clause_by_doc_fst (st : Store) (sid : String) (d : Nat) (k : String)
    (now : Nat) :
    (get_clause_by_doc_and_clause_id st sid d k now).1 =
      (clausesOf st sid).find? (fun c => c.document_id == d && c.clause_id == k) := by
  rw [get_clause_by_doc_and_clause_id, withSession_fst, touchSession_clauses]

theorem get_clauses_by_document_fst (st : Store) (sid : String) (d : Nat) (now : Nat) :
    (get_clauses_by_document st sid d now).1 =
      (clausesOf st sid).filter (fun c => c.document_id == d) := by
  rw [get_clauses_by_document, withSession_fst, touchSession_clauses]

theorem add_result_fst (st : Store) (sid : String) (aid c r : Nat)
    (j1 j2 j3 j4 j5 : JVal) (now : Nat) :
    (add_result st sid aid c r j1 j2 j3 j4 j5 now).1 =
      ⟨resultCounterOf st sid + 1, aid, c, r, j1, j2, j3, j4, j5⟩ := by
  rw [add_result, withSession_fst]
  cases h : sessionFind st sid <;>
    simp [touchSession, resultCounterOf, h, emptySession]

theorem add_result_resultsOf (st : Store) (sid : String) (aid c r : Nat)
    (j1 j2 j3 j4 j5 : JVal) (now : Nat) :
    resultsOf (add_result st sid aid c r j1 j2 j3 j4 j5 now).2 sid =
      resultsOf st sid ++ [⟨resultCounterOf st sid + 1, aid, c, r, j1, j2, j3, j4, j5⟩] := by
  rw [add_result]
  rw [resultsOf]
  rw [withSession_snd_self]
  cases h : sessionFind st sid <;>
    simp [touchSession, resultCounterOf, resultsOf, h, emptySession]

theorem withSession_resultsOf_other (st : Store) (sid : String) (now : Nat)
    (f : SessionData → α × SessionData) (x : String) (hne : x ≠ sid) :
    resultsOf (withSession st sid now f).2 x = resultsOf st x := by
  simp [resultsOf, withSession_snd_other st sid now f x hne]

theorem process_clause_ok (retr : RetrieveFn) (judge : JudgeFn) (jl : JsonLoads)
    (st : Store) (sid : String) (reg aid : Nat) (c : Clause) (now : Nat)
    (hmeta : ∀ hd tl', retr c.text = hd :: tl' → hd.1.metadata.clause_id.isSome) :
    ∃ r st',
      process_clause retr judge jl st sid reg aid c now = .ok (r, st') ∧
      (∀ x, docsOf st' x = docsOf st x) ∧
      (∀ x, clausesOf st' x = clausesOf st x) ∧
      (∀ x, assessmentsOf st' x = assessmentsOf st x) ∧
      (∀ x, x ≠ sid → resultsOf st' x = resultsOf st x) ∧
      (resultsOf st' sid = resultsOf st sid ++
        (match r with | none => [] | some rr => [rr])) ∧
      (∀ best rc, clausePipeline retr st sid reg c = some (best, rc) →
        ∃ rr, r = some rr ∧
          rr.assessment_id = aid ∧ rr.customer_clause_id = c.id ∧
          rr.regulation_clause_id = rc.id ∧
          rr.status = (analyze_compliance jl (judge c.text rc.text)).status ∧
          rr.risk = (analyze_compliance jl (judge c.text rc.text)).risk ∧
          rr.reasoning = (analyze_compliance jl (judge c.text rc.text)).reasoning ∧
          rr.evidence_text = (analyze_compliance jl (judge c.text rc.text)).evidence_text ∧
          rr.confidence = (analyze_compliance jl (judge c.text rc.text)).confidence) := by
  cases hr : retr c.text with
  | nil =>
    refine ⟨none, st, ?_⟩
    simp [process_clause, hr, clausePipeline]
  | cons hd tl =>
    have hsome := hmeta hd tl hr
    obtain ⟨key, hkey⟩ := Option.isSome_iff_exists.mp hsome
    have hpipe : clausePipeline retr st sid reg c =
        ((clausesOf st sid).find? (fun rc =>
          rc.document_id == reg && rc.clause_id == key)).map (fun rc => (hd.1, rc)) := by
      simp [clausePipeline, hr, hkey]
    cases hrc : (get_clause_by_doc_and_clause_id st sid reg key now).1 with
    | none =>
      refine ⟨none, (get_clause_by_doc_and_clause_id st sid reg key now).2,
        by simp [process_clause, hr, hkey, hrc], ?_, ?_, ?_, ?_, ?_, ?_⟩
      · intro x
        rw [get_clause_by_doc_and_clause_id]
        exact withSession_docsOf st sid now _ (fun s => rfl) x
      · intro x
        rw [get_clause_by_doc_and_clause_id]
        exact withSession_clausesOf st sid now _ (fun s => rfl) x
      · intro x
        rw [get_clause_by_doc_and_clause_id]
        exact withSession_assessmentsOf st sid now _ (fun s => rfl) x
      · intro x _
        rw [get_clause_by_doc_and_clause_id]
        exact withSession_resultsOf st sid now _ (fun s => rfl) x
      · rw [get_clause_by_doc_and_clause_id]
        simp only [List.append_nil]
        exact withSession_resultsOf st sid now _ (fun s => rfl) sid
      · intro best rc hsome'
        rw [get_clause_by_doc_fst] at hrc
        rw [hpipe, hrc] at hsome'
        simp at hsome'
    | some rc0 =>
      refine ⟨some (add_result (get_clause_by_doc_and_clause_id st sid reg key now).2 sid
        aid c.id rc0.id
        (analyze_compliance jl (judge c.text rc0.text)).status
        (analyze_compliance jl (judge c.text rc0.text)).risk
        (analyze_compliance jl (judge c.text rc0.text)).reasoning
        (analyze_compliance jl (judge c.text rc0.text)).evidence_text
        (analyze_compliance jl (judge c.text rc0.text)).confidence now).1,
        (add_result (get_clause_by_doc_and_clause_id st sid reg key now).2 sid
        aid c.id rc0.id
        (analyze_compliance jl (judge c.text rc0.text)).status
        (analyze_compliance jl (judge c.text rc0.text)).risk
        (analyze_compliance jl (judge c.text rc0.text)).reasoning
        (analyze_compliance jl (judge c.text rc0.text)).evidence_text
        (analyze_compliance jl (judge c.text rc0.text)).confidence now).2,
        by simp [process_clause, hr, hkey, hrc], ?_, ?_, ?_, ?_, ?_, ?_⟩
      · intro x
        rw [add_result, get_clause_by_doc_and_clause_id]
        rw [withSession_docsOf _ sid now _ (fun s => rfl) x]
        exact withSession_docsOf st sid now _ (fun s => rfl) x
      · intro x
        rw [add_result, get_clause_by_doc_and_clause_id]
        rw [withSession_clausesOf _ sid now _ (fun s => rfl) x]
        exact withSession_clausesOf st sid now _ (fun s => rfl) x
      · intro x
        rw [add_result, get_clause_by_doc_and_clause_id]
        rw [withSession_assessmentsOf _ sid now _ (fun s => rfl) x]
        exact withSession_assessmentsOf st sid now _ (fun s => rfl) x
      · intro x hx
        rw [add_result, get_clause_by_doc_and_clause_id]
        rw [withSession_resultsOf_other _ sid now _ x hx]
        exact withSession_resultsOf_other st sid now _ x hx
      · rw [add_result_resultsOf]
        rw [get_clause_by_doc_and_clause_id]
        rw [withSession_resultsOf st sid now _ (fun s => rfl) sid]
        rw [← get_clause_by_doc_and_clause_id]
        rw [add_result_fst]
      · intro best rc hsome'
        rw [get_clause_by_doc_fst] at hrc
        rw [hpipe, hrc] at hsome'
        have hsome2 : (hd.1, rc0) = (best, rc) := by simpa using hsome'
        obtain ⟨hbest, hrc'⟩ := Prod.ext_iff.mp hsome2
        refine ⟨_, rfl, ?_⟩
        subst hrc'
        simp [add_result_fst]

theorem clausePipeline_congr (retr : RetrieveFn) (st1 st2 : Store) (sid : String)
    (reg : Nat) (c : Clause) (h : clausesOf st1 sid = clausesOf st2 sid) :
    clausePipeline retr st1 sid reg c = clausePipeline retr st2 sid reg c := by
  simp [clausePipeline, h]

theorem process_clause_ok_preserves (retr : RetrieveFn) (judge : JudgeFn)
    (jl : JsonLoads) (st : Store) (sid : String) (reg aid : Nat) (c : Clause)
    (now : Nat) (r : Option AssessmentResult) (st' : Store)
    (h : process_clause retr judge jl st sid reg aid c now = .ok (r, st')) :
    (∀ x, docsOf st' x = docsOf st x) ∧
    (∀ x, clausesOf st' x = clausesOf st x) ∧
    (∀ x, assessmentsOf st' x = assessmentsOf st x) ∧
    (∀ x, x ≠ sid → resultsOf st' x = resultsOf st x) ∧
    (∀ r0 ∈ resultsOf st sid, r0 ∈ resultsOf st' sid) := by
  cases hr : retr c.text with
  | nil =>
    rw [process_clause, hr] at h
    simp only [Except.ok.injEq, Prod.mk.injEq] at h
    obtain ⟨-, hst⟩ := h
    subst hst
    simp
  | cons hd tl =>
    cases hk : hd.1.metadata.clause_id with
    | none => rw [process_clause, hr] at h; simp [hk] at h
    | some key =>
      cases hrc : (get_clause_by_doc_and_clause_id st sid reg key now).1 with
      | none =>
        rw [process_clause, hr] at h
        simp only [hk, hrc, Except.ok.injEq, Prod.mk.injEq] at h
        obtain ⟨-, hst⟩ := h
        subst hst
        refine ⟨?_, ?_, ?_, ?_, ?_⟩
        · intro x
          rw [get_clause_by_doc_and_clause_id]
          exact withSession_docsOf st sid now _ (fun s => rfl) x
        · intro x
          rw [get_clause_by_doc_and_clause_id]
          exact withSession_clausesOf st sid now _ (fun s => rfl) x
        · intro x
          rw [get_clause_by_doc_and_clause_id]
          exact withSession_assessmentsOf st sid now _ (fun s => rfl) x
        · intro x hx
          rw [get_clause_by_doc_and_clause_id]
          exact withSession_resultsOf_other st sid now _ x hx
        · intro r0 hr0
          rw [get_clause_by_doc_and_clause_id]
          rw [withSession_resultsOf st sid now _ (fun s => rfl) sid]
          exact hr0
      | some rc0 =>
        rw [process_clause, hr] at h
        simp only [hk, hrc, Except.ok.injEq, Prod.mk.injEq] at h
        obtain ⟨-, hst⟩ := h
        subst hst
        refine ⟨?_, ?_, ?_, ?_, ?_⟩
        · intro x
          rw [add_result, get_clause_by_doc_and_clause_id]
          rw [withSession_docsOf _ sid now _ (fun s => rfl) x]
          exact withSession_docsOf st sid now _ (fun s => rfl) x
        · intro x
          rw [add_result, get_clause_by_doc_and_clause_id]
          rw [withSession_clausesOf _ sid now _ (fun s => rfl) x]
          exact withSession_clausesOf st sid now _ (fun s => rfl) x
        · intro x
          rw [add_result, get_clause_by_doc_and_clause_id]
          rw [withSession_assessmentsOf _ sid now _ (fun s => rfl) x]
          exact withSession_assessmentsOf st sid now _ (fun s => rfl) x
        · intro x hx
          rw [add_result, get_clause_by_doc_and_clause_id]
          rw [withSession_resultsOf_other _ sid now _ x hx]
          exact withSession_resultsOf_other st sid now _ x hx
        · intro r0 hr0
          rw [add_result_resultsOf]
          rw [get_clause_by_doc_and_clause_id]
          rw [withSession_resultsOf st sid now _ (fun s => rfl) sid]
          exact List.mem_append_left _ hr0

theorem assessLoop_preserves (retr : RetrieveFn) (judge : JudgeFn) (jl : JsonLoads)
    (sid : String) (reg aid now : Nat) :
    ∀ (cs : List Clause) (st : Store) (count : Nat),
      (∀ x, docsOf (assessLoop retr judge jl sid reg aid now cs st count).2 x = docsOf st x) ∧
      (∀ x, clausesOf (assessLoop retr judge jl sid reg aid now cs st count).2 x = clausesOf st x) ∧
      (∀ x, assessmentsOf (assessLoop retr judge jl sid reg aid now cs st count).2 x =
        assessmentsOf st x) := by
  intro cs
  induction cs with
  | nil => intro st count; simp [assessLoop]
  | cons c rest ih =>
    intro st count
    cases hp : process_clause retr judge jl st sid reg aid c now with
    | error e => simp [assessLoop, hp]
    | ok pr =>
      obtain ⟨r, st1⟩ := pr
      obtain ⟨hd1, hc1, ha1, -, -⟩ := process_clause_ok_preserves retr judge jl st sid
        reg aid c now r st1 hp
      have heq : assessLoop retr judge jl sid reg aid now (c :: rest) st count =
          assessLoop retr judge jl sid reg aid now rest st1
            (count + (if r.isSome then 1 else 0)) := by
        simp [assessLoop, hp]
      rw [heq]
      obtain ⟨ihd, ihc, iha⟩ := ih st1 (count + (if r.isSome then 1 else 0))
      exact ⟨fun x => (ihd x).trans (hd1 x), fun x => (ihc x).trans (hc1 x),
        fun x => (iha x).trans (ha1 x)⟩

theorem assessLoop_ok (retr : RetrieveFn) (judge : JudgeFn) (jl : JsonLoads)
    (sid : String) (reg aid now : Nat) :
    ∀ (cs : List Clause) (st : Store) (count : Nat),
      (∀ c ∈ cs, ∀ hd tl', retr c.text = hd :: tl' → hd.1.metadata.clause_id.isSome) →
      ∃ n st',
        assessLoop retr judge jl sid reg aid now cs st count = (.ok n, st') ∧
        (∀ x, docsOf st' x = docsOf st x) ∧
        (∀ x, clausesOf st' x = clausesOf st x) ∧
        (∀ x, assessmentsOf st' x = assessmentsOf st x) ∧
        (∀ x, x ≠ sid → resultsOf st' x = resultsOf st x) ∧
        (∀ r0 ∈ resultsOf st sid, r0 ∈ resultsOf st' sid) ∧
        (∀ c ∈ cs, ∀ best rc, clausePipeline retr st sid reg c = some (best, rc) →
          ∃ rr ∈ resultsOf st' sid,
            rr.assessment_id = aid ∧ rr.customer_clause_id = c.id ∧
            rr.regulation_clause_id = rc.id ∧
            rr.status = (analyze_compliance jl (judge c.text rc.text)).status ∧
            rr.risk = (analyze_compliance jl (judge c.text rc.text)).risk ∧
            rr.reasoning = (analyze_compliance jl (judge c.text rc.text)).reasoning ∧
            rr.evidence_text = (analyze_compliance jl (judge c.text rc.text)).evidence_text ∧
            rr.confidence = (analyze_compliance jl (judge c.text rc.text)).confidence) := by
  intro cs
  induction cs with
  | nil =>
    intro st count hmeta
    exact ⟨count, st, by simp [assessLoop], by simp, by simp, by simp, by simp, by simp,
      by simp⟩
  | cons c rest ih =>
    intro st count hmeta
    obtain ⟨r, st1, hp, hprops⟩ := process_clause_ok retr judge jl st sid reg aid c now
      (hmeta c (List.mem_cons_self c rest))
    obtain ⟨hd1, hc1, ha1, hrother1, hrsid1, hpipe1⟩ := hprops
    obtain ⟨n, st', hloop, ihd, ihc, iha, ihrother, ihmono, ihpipe⟩ :=
      ih st1 (count + (if r.isSome then 1 else 0))
        (fun c' hc' => hmeta c' (List.mem_cons_of_mem _ hc'))
    refine ⟨n, st', ?_, ?_, ?_, ?_, ?_, ?_, ?_⟩
    · simp [assessLoop, hp, hloop]
    · exact fun x => (ihd x).trans (hd1 x)
    · exact fun x => (ihc x).trans (hc1 x)
    · exact fun x => (iha x).trans (ha1 x)
    · exact fun x hx => (ihrother x hx).trans (hrother1 x hx)
    · intro r0 hr0
      apply ihmono
      rw [hrsid1]
      exact List.mem_append_left _ hr0
    · intro c' hc' best rc hpipe'
      rcases List.mem_cons.mp hc' with hceq | hcrest
      · subst hceq
        obtain ⟨rr, hreq, hfields⟩ := hpipe1 best rc hpipe'
        subst hreq
        refine ⟨rr, ?_, hfields⟩
        apply ihmono
        rw [hrsid1]
        simp
      · have hpipe'' : clausePipeline retr st1 sid reg c' = some (best, rc) := by
          rw [clausePipeline_congr retr st1 st sid reg c' (hc1 sid)]
          exact hpipe'
        exact ihpipe c' hcrest best rc hpipe''

/-- Claim C2 counterexample: the judgment capability returns the parseable
but incomplete object `{"status": "COMPLIANT"}` (no risk/confidence/
reasoning); the claim demands `status=UNKNOWN, risk=HIGH, confidence=0.0`
for incomplete structured output, but the persisted result keeps the parsed
`status="COMPLIANT"` and only defaults the missing fields. -/
theorem c2_incomplete_verdict_counterexample :
    (assess_compliance retrC2 judgeC2 jsonModelC2 stC2 "s" 1 2 5).1 = .ok (1, 1) ∧
    (resultsOf (assess_compliance retrC2 judgeC2 jsonModelC2 stC2 "s" 1 2 5).2 "s").map
      (fun r => (r.status, r.risk, r.reasoning, r.confidence)) =
      [(.s "COMPLIANT", .s "HIGH", .s "No reasoning provided", .n 0)] ∧
    JVal.s "COMPLIANT" ≠ JVal.s "UNKNOWN" := by
  refine ⟨rfl, by decide, by decide⟩

/-- Claim C2 (amended): when the judgment capability *errors* or returns
*unparseable* output, the substituted verdict is the full default
(`status=UNKNOWN, risk=HIGH, confidence=0.0`, reasoning explaining the
failure); when it returns parseable but incomplete output, each missing
field individually defaults.  In every case the per-clause outcome is
persisted and the batch completes with an `ok` outcome, producing a result
for every clause whose retrieval pipeline succeeds — a per-clause judgment
failure never aborts the assessment. -/
theorem c2_judgment_failure_recovery (retr : RetrieveFn) (judge : JudgeFn)
    (jl : JsonLoads) (st : Store) (sid : String) (cust reg now : Nat)
    (hne : (clausesOf st sid).filter (fun c => c.document_id == cust) ≠ [])
    (hmeta : ∀ c ∈ (clausesOf st sid).filter (fun c => c.document_id == cust),
      ∀ hd tl', retr c.text = hd :: tl' → hd.1.metadata.clause_id.isSome) :
    ∃ aid n st',
      assess_compliance retr judge jl st sid cust reg now = (.ok (aid, n), st') ∧
      (∀ c ∈ (clausesOf st sid).filter (fun c => c.document_id == cust),
        ∀ best rc, clausePipeline retr st sid reg c = some (best, rc) →
          ∃ rr ∈ resultsOf st' sid,
            rr.assessment_id = aid ∧ rr.customer_clause_id = c.id ∧
            rr.regulation_clause_id = rc.id ∧
            rr.status = (analyze_compliance jl (judge c.text rc.text)).status ∧
            rr.risk = (analyze_compliance jl (judge c.text rc.text)).risk ∧
            rr.reasoning = (analyze_compliance jl (judge c.text rc.text)).reasoning ∧
            rr.evidence_text = (analyze_compliance jl (judge c.text rc.text)).evidence_text ∧
            rr.confidence = (analyze_compliance jl (judge c.text rc.text)).confidence) ∧
      (∀ e, analyze_compliance jl (Except.error e) =
        ⟨.s "UNKNOWN", .s "HIGH", .s ("AI analysis failed: " ++ e), .s "N/A", .n 0⟩) ∧
      (∀ raw e, jl (sliceBraces (pyStrip raw)) = .error e →
        analyze_compliance jl (Except.ok raw) =
          ⟨.s "UNKNOWN", .s "HIGH", .s ("Failed to interpret AI response: " ++ e),
           .s "N/A", .n 0⟩) := by
  have hres1 : (get_clauses_by_document st sid cust now).1 =
      (clausesOf st sid).filter (fun c => c.document_id == cust) :=
    get_clauses_by_document_fst st sid cust now
  have hclauses2 : clausesOf (add_assessment (get_clauses_by_document st sid cust now).2
      sid cust reg now).2 sid = clausesOf st sid := by
    rw [add_assessment, get_clauses_by_document]
    rw [withSession_clausesOf _ sid now _ (fun s => rfl) sid]
    exact withSession_clausesOf st sid now _ (fun s => rfl) sid
  obtain ⟨n, st', hloop, -, -, -, -, -, hpipe⟩ :=
    assessLoop_ok retr judge jl sid reg
      (add_assessment (get_clauses_by_document st sid cust now).2 sid cust reg now).1.id now
      (get_clauses_by_document st sid cust now).1
      (add_assessment (get_clauses_by_document st sid cust now).2 sid cust reg now).2 0
      (by rw [hres1]; exact hmeta)
  refine ⟨(add_assessment (get_clauses_by_document st sid cust now).2 sid cust reg now).1.id,
    n, st', ?_, ?_, fun e => rfl, ?_⟩
  · rw [assess_compliance]
    have hE : (get_clauses_by_document st sid cust now).1.isEmpty = false := by
      rw [hres1]
      cases hE2 : ((clausesOf st sid).filter (fun c => c.document_id == cust)).isEmpty
      · rfl
      · exact absurd (List.isEmpty_iff.mp hE2) hne
    simp only [hE, Bool.false_eq_true, if_false, hloop]
  · intro c hc best rc hp
    have hp2 : clausePipeline retr
        (add_assessment (get_clauses_by_document st sid cust now).2 sid cust reg now).2
        sid reg c = some (best, rc) := by
      rw [clausePipeline_congr retr _ st sid reg c hclauses2]
      exact hp
    exact hpipe c (by rw [hres1]; exact hc) best rc hp2
  · intro raw e hraw
    rw [analyze_compliance, hraw]

/-- Witness for C2 at a concrete store: the judgment capability raises, the
batch still returns `ok`, and the persisted result carries the full default
verdict. -/
theorem c2_judgment_failure_recovery_witness :
    ∃ aid n st',
      assess_compliance retrC2 judgeErr jsonNone stC2 "s" 1 2 5 = (.ok (aid, n), st') ∧
      ∃ rr ∈ resultsOf st' "s",
        rr.status = .s "UNKNOWN" ∧ rr.risk = .s "HIGH" ∧ rr.confidence = .n 0 ∧
        rr.reasoning = .s "AI analysis failed: boom" := by
  obtain ⟨aid, n, st', heq, hres, -, -⟩ :=
    c2_judgment_failure_recovery retrC2 judgeErr jsonNone stC2 "s" 1 2 5 (by decide)
      (by
        intro c hc hd tl' hr
        have : ((vrecC2, (1 : ℚ)) :: []) = hd :: tl' := hr
        have hhd : hd = (vrecC2, (1 : ℚ)) := by
          injection this with h1 h2
          exact h1.symm
        subst hhd
        decide)
  have hpipe : clausePipeline retrC2 stC2 "s" 2
      (⟨1, 1, "A.1", "The device is grounded.", 1, "UNKNOWN"⟩ : Clause) =
      some (vrecC2, ⟨2, 2, "1.1", "X must be grounded.", 1, "MUST"⟩) := by decide
  obtain ⟨rr, hmem, -, -, -, hstat, hrisk, hreas, -, hconf⟩ :=
    hres ⟨1, 1, "A.1", "The device is grounded.", 1, "UNKNOWN"⟩ (by decide) _ _ hpipe
  exact ⟨aid, n, st', heq, rr, hmem, by rw [hstat]; rfl, by rw [hrisk]; rfl,
    by rw [hconf]; rfl, by rw [hreas]; rfl⟩

theorem touchSession_assessment_counter (st : Store) (sid : String) (now : Nat) :
    (touchSession st sid now).assessment_counter = assessmentCounterOf st sid := by
  cases h : sessionFind st sid <;> simp [touchSession, assessmentCounterOf, h, emptySession]

theorem add_assessment_assessmentsOf (st : Store) (sid : String) (a b now : Nat) :
    assessmentsOf (add_assessment st sid a b now).2 sid =
      assessmentsOf st sid ++ [⟨assessmentCounterOf st sid + 1, a, b, now⟩] := by
  rw [add_assessment, assessmentsOf, withSession_snd_self]
  cases h : sessionFind st sid <;>
    simp [touchSession, assessmentCounterOf, assessmentsOf, h, emptySession]

theorem assessmentCounterOf_withSession (st : Store) (sid : String) (now : Nat)
    (f : SessionData → α × SessionData)
    (hf : ∀ s, ((f s).2).assessment_counter = s.assessment_counter) :
    assessmentCounterOf (withSession st sid now f).2 sid = assessmentCounterOf st sid := by
  rw [assessmentCounterOf, withSession_snd_self]
  cases h : sessionFind st sid <;>
    simp [hf, touchSession, assessmentCounterOf, h, emptySession]

/-- Claim C3 counterexample: an assess request against a clauseless
customer document does fail fast with the empty-input error and creates no
`Assessment`, but the session's state is *not* unchanged — the operation
touches the session, bumping `last_activity` (here from 0 to 5). -/
theorem c3_error_path_counterexample :
    (assess_compliance retrEmpty judgeErr jsonNone stC3 "s" 1 2 5).1 =
      .error "No clauses found in customer document" ∧
    (assess_compliance retrEmpty judgeErr jsonNone stC3 "s" 1 2 5).2 ≠ stC3 ∧
    lastActivityOf (assess_compliance retrEmpty judgeErr jsonNone stC3 "s" 1 2 5).2 "s" =
      some 5 ∧
    lastActivityOf stC3 "s" = some 0 := by
  exact ⟨rfl, by decide, by decide, by decide⟩

/-- Claim C3 (amended): with zero customer clauses the assess operation
fails fast with the empty-input error and no `Assessment` record is
created — the session's entity state is unchanged and only its
`last_activity` is refreshed (an absent session is lazily created empty);
with at least one clause, the `Assessment` record (next counter id, the two
document ids, the current tick) is in the store after the call for *every*
retrieval/judgment/parsing capability — in particular for ones that always
fail — so its creation does not depend on any per-clause judgment outcome. -/
theorem c3_empty_input_atomicity (retr : RetrieveFn) (judge : JudgeFn)
    (jl : JsonLoads) (st : Store) (sid : String) (cust reg now : Nat) :
    ((clausesOf st sid).filter (fun c => c.document_id == cust) = [] →
      (assess_compliance retr judge jl st sid cust reg now).1 =
        .error "No clauses found in customer document" ∧
      sessionFind (assess_compliance retr judge jl st sid cust reg now).2 sid =
        some (touchSession st sid now) ∧
      assessmentsOf (assess_compliance retr judge jl st sid cust reg now).2 sid =
        assessmentsOf st sid ∧
      (∀ sid', sid' ≠ sid →
        sessionFind (assess_compliance retr judge jl st sid cust reg now).2 sid' =
          sessionFind st sid')) ∧
    ((clausesOf st sid).filter (fun c => c.document_id == cust) ≠ [] →
      assessmentsOf (assess_compliance retr judge jl st sid cust reg now).2 sid =
        assessmentsOf st sid ++ [⟨assessmentCounterOf st sid + 1, cust, reg, now⟩]) := by
  have hres1 : (get_clauses_by_document st sid cust now).1 =
      (clausesOf st sid).filter (fun c => c.document_id == cust) :=
    get_clauses_by_document_fst st sid cust now
  constructor
  · intro hempty
    have hE : (get_clauses_by_document st sid cust now).1.isEmpty = true := by
      rw [hres1, hempty]; rfl
    have hstore : (assess_compliance retr judge jl st sid cust reg now).2 =
        (get_clauses_by_document st sid cust now).2 := by
      rw [assess_compliance]; simp [hE]
    have hfst : (assess_compliance retr judge jl st sid cust reg now).1 =
        .error "No clauses found in customer document" := by
      rw [assess_compliance]; simp [hE]
    refine ⟨hfst, ?_, ?_, ?_⟩
    · rw [hstore, get_clauses_by_document, withSession_snd_self]
    · rw [hstore, get_clauses_by_document]
      exact withSession_assessmentsOf st sid now _ (fun s => rfl) sid
    · intro sid' hsid'
      rw [hstore, get_clauses_by_document]
      exact withSession_snd_other st sid now _ sid' hsid'
  · intro hne
    have hE : (get_clauses_by_document st sid cust now).1.isEmpty = false := by
      rw [hres1]
      cases hE2 : ((clausesOf st sid).filter (fun c => c.document_id == cust)).isEmpty
      · rfl
      · exact absurd (List.isEmpty_iff.mp hE2) hne
    have hstore : (assess_compliance retr judge jl st sid cust reg now).2 =
        (assessLoop retr judge jl sid reg
          (add_assessment (get_clauses_by_document st sid cust now).2 sid cust reg now).1.id
          now (get_clauses_by_document st sid cust now).1
          (add_assessment (get_clauses_by_document st sid cust now).2 sid cust reg now).2 0).2 := by
      rw [assess_compliance]
      simp only [hE, Bool.false_eq_true, if_false]
      cases hout : (assessLoop retr judge jl sid reg
          (add_assessment (get_clauses_by_document st sid cust now).2 sid cust reg now).1.id
          now (get_clauses_by_document st sid cust now).1
          (add_assessment (get_clauses_by_document st sid cust now).2 sid cust reg now).2 0).1 <;>
        simp [hout]
    rw [hstore]
    obtain ⟨-, -, ha⟩ := assessLoop_preserves retr judge jl sid reg
      (add_assessment (get_clauses_by_document st sid cust now).2 sid cust reg now).1.id now
      (get_clauses_by_document st sid cust now).1
      (add_assessment (get_clauses_by_document st sid cust now).2 sid cust reg now).2 0
    rw [ha sid]
    rw [add_assessment_assessmentsOf]
    have hcnt : assessmentCounterOf (get_clauses_by_document st sid cust now).2 sid =
        assessmentCounterOf st sid := by
      rw [get_clauses_by_document]
      exact assessmentCounterOf_withSession st sid now _ (fun s => rfl)
    have hass : assessmentsOf (get_clauses_by_document st sid cust now).2 sid =
        assessmentsOf st sid := by
      rw [get_clauses_by_document]
      exact withSession_assessmentsOf st sid now _ (fun s => rfl) sid
    rw [hcnt, hass]

/-- Witness for C3: the clauseless document yields the error with no
assessment created; the one-clause document (with an always-failing
judgment capability) yields the freshly created assessment record. -/
theorem c3_empty_input_atomicity_witness :
    (assess_compliance retrEmpty judgeErr jsonNone stC3 "s" 1 2 5).1 =
      .error "No clauses found in customer document" ∧
    assessmentsOf (assess_compliance retrEmpty judgeErr jsonNone stC3 "s" 1 2 5).2 "s" = [] ∧
    assessmentsOf (assess_compliance retrC2 judgeErr jsonNone stC2 "s" 1 2 5).2 "s" =
      [⟨1, 1, 2, 5⟩] := by
  obtain ⟨h1, -, h3, -⟩ :=
    (c3_empty_input_atomicity retrEmpty judgeErr jsonNone stC3 "s" 1 2 5).1 (by decide)
  have h4 :=
    (c3_empty_input_atomicity retrC2 judgeErr jsonNone stC2 "s" 1 2 5).2 (by decide)
  exact ⟨h1, h3.trans (by decide), h4.trans (by decide)⟩

/-! ### Lemmas for the delete-document cascade -/

theorem get_document_fst (st : Store) (sid : String) (d : Nat) (now : Nat) :
    (get_document st sid d now).1 = (docsOf st sid).find? (fun doc => doc.id == d) := by
  rw [get_document, withSession_fst, touchSession_documents]

theorem get_assessments_by_doc_fst (st : Store) (sid : String) (d : Nat) (now : Nat) :
    (get_assessments_by_doc st sid d now).1 =
      (assessmentsOf st sid).filter
        (fun a => a.customer_doc_id == d || a.regulation_doc_id == d) := by
  rw [get_assessments_by_doc, withSession_fst, touchSession_assessments]

theorem withSession_assessmentsOf_map (st : Store) (sid : String) (now : Nat)
    (f : SessionData → α × SessionData) (g : List Assessment → List Assessment)
    (hf : ∀ s, ((f s).2).assessments = g s.assessments) :
    assessmentsOf (withSession st sid now f).2 sid = g (assessmentsOf st sid) := by
  rw [assessmentsOf, withSession_snd_self]
  simp [hf, touchSession_assessments]

theorem withSession_resultsOf_map (st : Store) (sid : String) (now : Nat)
    (f : SessionData → α × SessionData)
    (g : List AssessmentResult → List AssessmentResult)
    (hf : ∀ s, ((f s).2).assessment_results = g s.assessment_results) :
    resultsOf (withSession st sid now f).2 sid = g (resultsOf st sid) := by
  rw [resultsOf, withSession_snd_self]
  simp [hf, touchSession_results]

theorem delete_results_mem (st : Store) (sid : String) (aid now : Nat) :
    ∀ r ∈ resultsOf (delete_results_by_assessment st sid aid now).2 sid,
      r ∈ resultsOf st sid ∧ r.assessment_id ≠ aid := by
  intro r hr
  rw [delete_results_by_assessment,
    withSession_resultsOf_map st sid now _
      (fun l => l.filter (fun r2 =>
        ¬ ((l.filter (fun r3 => r3.assessment_id == aid)).map (·.id)).contains r2.id))
      (fun s => rfl)] at hr
  have hmem := (List.mem_filter.mp hr).1
  have hpred := (List.mem_filter.mp hr).2
  refine ⟨hmem, ?_⟩
  intro heq
  have hidmem : r.id ∈ ((resultsOf st sid).filter
      (fun r3 => r3.assessment_id == aid)).map (·.id) :=
    List.mem_map_of_mem _ (List.mem_filter.mpr ⟨hmem, by simp [heq]⟩)
  simp [hidmem] at hpred

theorem delete_results_preserves (st : Store) (sid : String) (aid now : Nat) :
    (∀ x, docsOf (delete_results_by_assessment st sid aid now).2 x = docsOf st x) ∧
    (∀ x, clausesOf (delete_results_by_assessment st sid aid now).2 x = clausesOf st x) ∧
    (∀ x, assessmentsOf (delete_results_by_assessment st sid aid now).2 x =
      assessmentsOf st x) := by
  rw [delete_results_by_assessment]
  exact ⟨fun x => withSession_docsOf st sid now _ (fun s => rfl) x,
    fun x => withSession_clausesOf st sid now _ (fun s => rfl) x,
    fun x => withSession_assessmentsOf st sid now _ (fun s => rfl) x⟩

theorem delete_assessment_mem_results (st : Store) (sid : String) (aid now : Nat) :
    ∀ r ∈ resultsOf (delete_assessment st sid aid now) sid,
      r ∈ resultsOf st sid ∧ r.assessment_id ≠ aid := by
  intro r hr
  rw [delete_assessment] at hr
  have hmid : resultsOf (withSession (delete_results_by_assessment st sid aid now).2 sid now
      (fun s => ((), { s with assessments := s.assessments.filter (fun a => ¬ a.id == aid) }))).2
      sid = resultsOf (delete_results_by_assessment st sid aid now).2 sid :=
    withSession_resultsOf _ sid now _ (fun s => rfl) sid
  rw [hmid] at hr
  exact delete_results_mem st sid aid now r hr

theorem delete_assessment_mem_assessments (st : Store) (sid : String) (aid now : Nat) :
    ∀ b ∈ assessmentsOf (delete_assessment st sid aid now) sid,
      b ∈ assessmentsOf st sid ∧ b.id ≠ aid := by
  intro b hb
  rw [delete_assessment] at hb
  rw [withSession_assessmentsOf_map _ sid now _
    (fun l => l.filter (fun a => ¬ a.id == aid)) (fun s => rfl)] at hb
  have hmem := (List.mem_filter.mp hb).1
  have hpred := (List.mem_filter.mp hb).2
  rw [(delete_results_preserves st sid aid now).2.2 sid] at hmem
  refine ⟨hmem, ?_⟩
  intro heq
  simp [heq] at hpred

theorem delete_assessment_preserves (st : Store) (sid : String) (aid now : Nat) :
    (∀ x, docsOf (delete_assessment st sid aid now) x = docsOf st x) ∧
    (∀ x, clausesOf (delete_assessment st sid aid now) x = clausesOf st x) := by
  rw [delete_assessment]
  constructor
  · intro x
    rw [withSession_docsOf _ sid now _ (fun s => rfl) x]
    exact (delete_results_preserves st sid aid now).1 x
  · intro x
    rw [withSession_clausesOf _ sid now _ (fun s => rfl) x]
    exact (delete_results_preserves st sid aid now).2.1 x

theorem foldDelete_spec (sid : String) (now : Nat) (L : List Assessment) :
    ∀ st : Store,
      (∀ r ∈ resultsOf (L.foldl (fun s a => delete_assessment s sid a.id now) st) sid,
        r ∈ resultsOf st sid ∧ ∀ a ∈ L, r.assessment_id ≠ a.id) ∧
      (∀ b ∈ assessmentsOf (L.foldl (fun s a => delete_assessment s sid a.id now) st) sid,
        b ∈ assessmentsOf st sid ∧ ∀ a ∈ L, b.id ≠ a.id) ∧
      (∀ x, docsOf (L.foldl (fun s a => delete_assessment s sid a.id now) st) x = docsOf st x) ∧
      (∀ x, clausesOf (L.foldl (fun s a => delete_assessment s sid a.id now) st) x =
        clausesOf st x) := by
  induction L with
  | nil => intro st; simp
  | cons a L' ih =>
    intro st
    simp only [List.foldl_cons]
    obtain ⟨ihr, ihb, ihd, ihc⟩ := ih (delete_assessment st sid a.id now)
    refine ⟨?_, ?_, ?_, ?_⟩
    · intro r hr
      obtain ⟨hmem1, hne1⟩ := ihr r hr
      obtain ⟨hmem0, hne0⟩ := delete_assessment_mem_results st sid a.id now r hmem1
      refine ⟨hmem0, ?_⟩
      intro a' ha'
      rcases List.mem_cons.mp ha' with h | h
      · subst h; exact hne0
      · exact hne1 a' h
    · intro b hb
      obtain ⟨hmem1, hne1⟩ := ihb b hb
      obtain ⟨hmem0, hne0⟩ := delete_assessment_mem_assessments st sid a.id now b hmem1
      refine ⟨hmem0, ?_⟩
      intro a' ha'
      rcases List.mem_cons.mp ha' with h | h
      · subst h; exact hne0
      · exact hne1 a' h
    · intro x
      rw [ihd x]
      exact (delete_assessment_preserves st sid a.id now).1 x
    · intro x
      rw [ihc x]
      exact (delete_assessment_preserves st sid a.id now).2 x

theorem store_delete_document_found (st : Store) (sid : String) (d now : Nat)
    (h : ((docsOf st sid).find? (fun doc => doc.id == d)).isSome) :
    docsOf (store_delete_document st sid d now).2 sid =
      (docsOf st sid).filter (fun doc => ¬ doc.id == d) ∧
    (∀ c ∈ clausesOf (store_delete_document st sid d now).2 sid,
      c ∈ clausesOf st sid ∧ c.document_id ≠ d) ∧
    (∀ x, assessmentsOf (store_delete_document st sid d now).2 x = assessmentsOf st x) ∧
    (∀ x, resultsOf (store_delete_document st sid d now).2 x = resultsOf st x) := by
  have htouch : ((touchSession st sid now).documents.find? (fun doc => doc.id == d)).isSome := by
    rw [touchSession_documents]; exact h
  refine ⟨?_, ?_, ?_, ?_⟩
  · rw [store_delete_document, docsOf, withSession_snd_self]
    simp only [htouch, if_true]
    simp [touchSession_documents]
  · intro c hc
    rw [store_delete_document, clausesOf, withSession_snd_self] at hc
    simp only [touchSession_clauses, touchSession_documents, h, if_true,
      Option.map_some, Option.getD_some] at hc
    have hmem := (List.mem_filter.mp hc).1
    have hpred := (List.mem_filter.mp hc).2
    refine ⟨hmem, ?_⟩
    intro heq
    have hidmem : c.id ∈ ((clausesOf st sid).filter
        (fun c2 => c2.document_id == d)).map (·.id) :=
      List.mem_map_of_mem _ (List.mem_filter.mpr ⟨hmem, by simp [heq]⟩)
    simp [hidmem] at hpred
  · intro x
    by_cases hx : x = sid
    · subst hx
      rw [store_delete_document, assessmentsOf, withSession_snd_self]
      split <;> simp [touchSession_assessments, assessmentsOf]
    · rw [store_delete_document]
      simp [assessmentsOf, withSession_snd_other st sid now _ x hx]
  · intro x
    by_cases hx : x = sid
    · subst hx
      rw [store_delete_document, resultsOf, withSession_snd_self]
      split <;> simp [touchSession_results, resultsOf]
    · rw [store_delete_document]
      simp [resultsOf, withSession_snd_other st sid now _ x hx]

/-- Claim C7: the delete-document operation (the DELETE route composed with
the store method) removes the document, every clause whose `document_id`
matches, and every assessment referencing the document as customer or
regulation side together with that assessment's results — afterwards no
clause, assessment, or result in the session references the deleted
document. -/
theorem c7_delete_document_cascade (st : Store) (sid : String) (d now : Nat)
    (h : ((docsOf st sid).find? (fun doc => doc.id == d)).isSome) :
    (delete_document_route st sid d now).1 = .ok "Document deleted" ∧
    (∀ doc ∈ docsOf (delete_document_route st sid d now).2 sid, doc.id ≠ d) ∧
    (∀ c ∈ clausesOf (delete_document_route st sid d now).2 sid, c.document_id ≠ d) ∧
    (∀ a ∈ assessmentsOf (delete_document_route st sid d now).2 sid,
      a.customer_doc_id ≠ d ∧ a.regulation_doc_id ≠ d) ∧
    (∀ r ∈ resultsOf (delete_document_route st sid d now).2 sid,
      ¬ ∃ a, a ∈ assessmentsOf st sid ∧ a.id = r.assessment_id ∧
        (a.customer_doc_id = d ∨ a.regulation_doc_id = d)) := by
  obtain ⟨doc0, hdoc0⟩ := Option.isSome_iff_exists.mp (by
    rw [get_document_fst]; exact h :
    ((get_document st sid d now).1).isSome)
  have hst1d : ∀ x, docsOf (get_document st sid d now).2 x = docsOf st x := by
    intro x; rw [get_document]; exact withSession_docsOf st sid now _ (fun s => rfl) x
  have hst1c : ∀ x, clausesOf (get_document st sid d now).2 x = clausesOf st x := by
    intro x; rw [get_document]; exact withSession_clausesOf st sid now _ (fun s => rfl) x
  have hst1a : ∀ x, assessmentsOf (get_document st sid d now).2 x = assessmentsOf st x := by
    intro x; rw [get_document]; exact withSession_assessmentsOf st sid now _ (fun s => rfl) x
  have hst1r : ∀ x, resultsOf (get_document st sid d now).2 x = resultsOf st x := by
    intro x; rw [get_document]
    exact withSession_resultsOf st sid now _ (fun s => rfl) x
  have hst2d : ∀ x, docsOf (get_assessments_by_doc (get_document st sid d now).2 sid d now).2 x =
      docsOf st x := by
    intro x; rw [get_assessments_by_doc]
    rw [withSession_docsOf _ sid now _ (fun s => rfl) x]
    exact hst1d x
  have hst2c : ∀ x, clausesOf (get_assessments_by_doc (get_document st sid d now).2 sid d now).2 x =
      clausesOf st x := by
    intro x; rw [get_assessments_by_doc]
    rw [withSession_clausesOf _ sid now _ (fun s => rfl) x]
    exact hst1c x
  have hst2a : ∀ x, assessmentsOf (get_assessments_by_doc (get_document st sid d now).2 sid d now).2 x =
      assessmentsOf st x := by
    intro x; rw [get_assessments_by_doc]
    rw [withSession_assessmentsOf _ sid now _ (fun s => rfl) x]
    exact hst1a x
  have hst2r : ∀ x, resultsOf (get_assessments_by_doc (get_document st sid d now).2 sid d now).2 x =
      resultsOf st x := by
    intro x; rw [get_assessments_by_doc]
    rw [withSession_resultsOf _ sid now _ (fun s => rfl) x]
    exact hst1r x
  have hL : (get_assessments_by_doc (get_document st sid d now).2 sid d now).1 =
      (assessmentsOf st sid).filter
        (fun a => a.customer_doc_id == d || a.regulation_doc_id == d) := by
    rw [get_assessments_by_doc_fst, hst1a]
  obtain ⟨hfr, hfb, hfd, hfc⟩ := foldDelete_spec sid now
    (get_assessments_by_doc (get_document st sid d now).2 sid d now).1
    (get_assessments_by_doc (get_document st sid d now).2 sid d now).2
  have hst3find : ((docsOf ((get_assessments_by_doc (get_document st sid d now).2 sid d now).1.foldl
      (fun s a => delete_assessment s sid a.id now)
      (get_assessments_by_doc (get_document st sid d now).2 sid d now).2) sid).find?
      (fun doc => doc.id == d)).isSome := by
    rw [hfd sid, hst2d sid]; exact h
  obtain ⟨hsd, hsc, hsa, hsr⟩ := store_delete_document_found _ sid d now hst3find
  have hroute : delete_document_route st sid d now =
      (.ok "Document deleted",
        (store_delete_document ((get_assessments_by_doc (get_document st sid d now).2 sid d now).1.foldl
          (fun s a => delete_assessment s sid a.id now)
          (get_assessments_by_doc (get_document st sid d now).2 sid d now).2) sid d now).2) := by
    rw [delete_document_route, hdoc0]
  rw [hroute]
  refine ⟨rfl, ?_, ?_, ?_, ?_⟩
  · intro doc hdoc
    rw [hsd] at hdoc
    have := (List.mem_filter.mp hdoc).2
    simpa using this
  · intro c hc
    exact (hsc c hc).2
  · intro a ha
    rw [hsa sid] at ha
    obtain ⟨hmem2, hne2⟩ := hfb a ha
    rw [hst2a sid] at hmem2
    constructor
    · intro heq
      have haL : a ∈ (get_assessments_by_doc (get_document st sid d now).2 sid d now).1 := by
        rw [hL]
        exact List.mem_filter.mpr ⟨hmem2, by simp [heq]⟩
      exact hne2 a haL rfl
    · intro heq
      have haL : a ∈ (get_assessments_by_doc (get_document st sid d now).2 sid d now).1 := by
        rw [hL]
        exact List.mem_filter.mpr ⟨hmem2, by simp [heq]⟩
      exact hne2 a haL rfl
  · intro r hr
    rw [hsr sid] at hr
    obtain ⟨hmem2, hne2⟩ := hfr r hr
    rintro ⟨a, hamem, haid, harefs⟩
    have haL : a ∈ (get_assessments_by_doc (get_document st sid d now).2 sid d now).1 := by
      rw [hL]
      refine List.mem_filter.mpr ⟨hamem, ?_⟩
      rcases harefs with h1 | h1 <;> simp [h1]
    exact hne2 a haL haid.symm

/-- Witness for C7 at a concrete store: deleting document 1 removes it, its
clause, the assessment referencing it and that assessment's result, while
the unrelated assessment, result, clause and documents survive. -/
theorem c7_delete_document_cascade_witness :
    (delete_document_route stC7 "s" 1 9).1 = .ok "Document deleted" ∧
    (∀ doc ∈ docsOf (delete_document_route stC7 "s" 1 9).2 "s", doc.id ≠ 1) ∧
    (∀ c ∈ clausesOf (delete_document_route stC7 "s" 1 9).2 "s", c.document_id ≠ 1) ∧
    (∀ a ∈ assessmentsOf (delete_document_route stC7 "s" 1 9).2 "s",
      a.customer_doc_id ≠ 1 ∧ a.regulation_doc_id ≠ 1) := by
  obtain ⟨h1, h2, h3, h4, -⟩ := c7_delete_document_cascade stC7 "s" 1 9 (by decide)
  exact ⟨h1, h2, h3, h4⟩

/-! ### Membership lemmas for reciprocal rank fusion -/

theorem rrfUpsert_mem_doc (f : List FusedEntry) (key : String) (dc : VRec) (c : ℚ) :
    ∀ e ∈ rrfUpsert f key dc c, e.2.1 = dc ∨ ∃ e' ∈ f, e.2.1 = e'.2.1 := by
  intro e he
  rw [rrfUpsert] at he
  split at he
  · rw [List.mem_map] at he
    obtain ⟨e', he', heq⟩ := he
    by_cases hk : e'.1 = key
    · subst heq; simp [hk]
    · subst heq; right; exact ⟨e', he', by simp [hk]⟩
  · rcases List.mem_append.mp he with h | h
    · exact Or.inr ⟨e, h, rfl⟩
    · simp at h
      subst h
      left; rfl

theorem rrfSrc_mem_doc (k w : ℚ) :
    ∀ (src : List (VRec × ℚ)) (rank : Nat) (f : List FusedEntry),
      ∀ e ∈ rrfSrc k w rank src f,
        (∃ p ∈ src, e.2.1 = p.1) ∨ ∃ e' ∈ f, e.2.1 = e'.2.1 := by
  intro src
  induction src with
  | nil => intro rank f e he; exact Or.inr ⟨e, he, rfl⟩
  | cons p rest ih =>
    intro rank f e he
    rw [rrfSrc] at he
    rcases ih (rank + 1) _ e he with h | h
    · obtain ⟨p', hp', heq⟩ := h
      exact Or.inl ⟨p', List.mem_cons_of_mem _ hp', heq⟩
    · obtain ⟨e', he', heq⟩ := h
      rcases rrfUpsert_mem_doc f (rrfKey p.1) p.1 (w * (1 / (k + rank + 1))) e' he' with h2 | h2
      · exact Or.inl ⟨p, List.mem_cons_self p rest, heq.trans h2⟩
      · obtain ⟨e'', he'', heq2⟩ := h2
        exact Or.inr ⟨e'', he'', heq.trans heq2⟩

theorem rrfAll_mem_doc (k : ℚ) (ws : List ℚ) :
    ∀ (lists : List (List (VRec × ℚ))) (i : Nat) (f : List FusedEntry),
      ∀ e ∈ rrfAll k ws i lists f,
        (∃ src ∈ lists, ∃ p ∈ src, e.2.1 = p.1) ∨ ∃ e' ∈ f, e.2.1 = e'.2.1 := by
  intro lists
  induction lists with
  | nil => intro i f e he; exact Or.inr ⟨e, he, rfl⟩
  | cons src rest ih =>
    intro i f e he
    rw [rrfAll] at he
    rcases ih (i + 1) _ e he with h | h
    · obtain ⟨src', hsrc', hp⟩ := h
      exact Or.inl ⟨src', List.mem_cons_of_mem _ hsrc', hp⟩
    · obtain ⟨e', he', heq⟩ := h
      rcases rrfSrc_mem_doc k (rrfWeight ws i) src 0 f e' he' with h2 | h2
      · obtain ⟨p, hp, heq2⟩ := h2
        exact Or.inl ⟨src, List.mem_cons_self src rest, p, hp, heq.trans heq2⟩
      · obtain ⟨e'', he'', heq2⟩ := h2
        exact Or.inr ⟨e'', he'', heq.trans heq2⟩

theorem mem_insertDescBy (score : α → ℚ) (x : α) (l : List α) (a : α) :
    a ∈ insertDescBy score x l ↔ a = x ∨ a ∈ l := by
  induction l with
  | nil => simp [insertDescBy]
  | cons y ys ih =>
    rw [insertDescBy]
    split
    · rw [List.mem_cons, ih, List.mem_cons]; tauto
    · rw [List.mem_cons, List.mem_cons]

theorem mem_sortDescBy (score : α → ℚ) (l : List α) (a : α) :
    a ∈ sortDescBy score l ↔ a ∈ l := by
  induction l with
  | nil => simp [sortDescBy]
  | cons x xs ih =>
    rw [sortDescBy, mem_insertDescBy]
    simp [ih]

theorem rrf_mem_docs (lists : List (List (VRec × ℚ))) (k : ℚ)
    (ws : Option (List ℚ)) (p : VRec × ℚ)
    (hp : p ∈ reciprocal_rank_fusion lists k ws) :
    ∃ src ∈ lists, ∃ q : ℚ, (p.1, q) ∈ src := by
  rw [reciprocal_rank_fusion] at hp
  rw [List.mem_map] at hp
  obtain ⟨e, he, heq⟩ := hp
  rw [mem_sortDescBy] at he
  rcases rrfAll_mem_doc k (ws.getD (List.replicate lists.length 1)) lists 0 [] e he with
    h | h
  · obtain ⟨src, hsrc, p', hp', heq2⟩ := h
    refine ⟨src, hsrc, p'.2, ?_⟩
    have : p.1 = p'.1 := by rw [← heq, heq2]
    rw [this]
    exact hp'
  · obtain ⟨e', he', -⟩ := h
    simp at he'

theorem rrfFold_append (a b : List (VRec × ℚ)) :
    ∀ f, rrfFold f (a ++ b) = rrfFold (rrfFold f a) b := by
  induction a with
  | nil => intro f; rfl
  | cons dc rest ih => intro f; rw [List.cons_append, rrfFold, rrfFold, ih]

theorem rrfSrc_eq_fold (k w : ℚ) :
    ∀ (src : List (VRec × ℚ)) (rank : Nat) (f : List FusedEntry),
      rrfSrc k w rank src f = rrfFold f (wTag k w rank src) := by
  intro src
  induction src with
  | nil => intro rank f; rfl
  | cons p rest ih => intro rank f; rw [rrfSrc, wTag, rrfFold, ih]

theorem rrfAll_eq_fold (k : ℚ) (ws : List ℚ) :
    ∀ (lists : List (List (VRec × ℚ))) (i : Nat) (f : List FusedEntry),
      rrfAll k ws i lists f = rrfFold f (wStream k ws i lists) := by
  intro lists
  induction lists with
  | nil => intro i f; rfl
  | cons src rest ih =>
    intro i f
    rw [rrfAll, wStream, rrfFold_append, ih, rrfSrc_eq_fold]

theorem wTag_docs (k w : ℚ) :
    ∀ (src : List (VRec × ℚ)) (rank : Nat),
      (wTag k w rank src).map (·.1) = src.map (·.1) := by
  intro src
  induction src with
  | nil => intro rank; rfl
  | cons p rest ih => intro rank; rw [wTag, List.map_cons, List.map_cons, ih]

theorem wStream_docs (k : ℚ) (ws : List ℚ) :
    ∀ (lists : List (List (VRec × ℚ))) (i : Nat),
      (wStream k ws i lists).map (·.1) = allSrcDocs lists := by
  intro lists
  induction lists with
  | nil => intro i; rfl
  | cons src rest ih =>
    intro i
    rw [wStream, List.map_append, wTag_docs, ih]
    rfl

theorem firstSeenKeys_eq (lists : List (List (VRec × ℚ))) :
    firstSeenKeys lists = keysAfter [] (allSrcDocs lists) := rfl

theorem mem_keysAfter :
    ∀ (l : List VRec) (ks : List String) (x : String),
      x ∈ keysAfter ks l ↔ x ∈ ks ∨ ∃ d ∈ l, rrfKey d = x := by
  intro l
  induction l with
  | nil => intro ks x; simp [keysAfter]
  | cons d rest ih =>
    intro ks x
    by_cases hmem : rrfKey d ∈ ks
    · rw [keysAfter, if_pos hmem, ih]
      constructor
      · rintro (h | ⟨d', hd', he⟩)
        · exact Or.inl h
        · exact Or.inr ⟨d', List.mem_cons_of_mem _ hd', he⟩
      · rintro (h | ⟨d', hd', he⟩)
        · exact Or.inl h
        · rcases List.mem_cons.mp hd' with h2 | h2
          · subst h2; exact Or.inl (he ▸ hmem)
          · exact Or.inr ⟨d', h2, he⟩
    · rw [keysAfter, if_neg hmem, ih]
      constructor
      · rintro (h | ⟨d', hd', he⟩)
        · rcases List.mem_append.mp h with h2 | h2
          · exact Or.inl h2
          · exact Or.inr ⟨d, List.mem_cons_self _ _, (List.mem_singleton.mp h2).symm⟩
        · exact Or.inr ⟨d', List.mem_cons_of_mem _ hd', he⟩
      · rintro (h | ⟨d', hd', he⟩)
        · exact Or.inl (List.mem_append.mpr (Or.inl h))
        · rcases List.mem_cons.mp hd' with h2 | h2
          · subst h2
            exact Or.inl (List.mem_append.mpr (Or.inr (List.mem_singleton.mpr he.symm)))
          · exact Or.inr ⟨d', h2, he⟩

theorem nodup_keysAfter :
    ∀ (l : List VRec) (ks : List String), ks.Nodup → (keysAfter ks l).Nodup := by
  intro l
  induction l with
  | nil => intro ks h; exact h
  | cons d rest ih =>
    intro ks h
    by_cases hmem : rrfKey d ∈ ks
    · rw [keysAfter, if_pos hmem]; exact ih ks h
    · rw [keysAfter, if_neg hmem]
      exact ih _ (by simp [List.nodup_append, h, hmem])

theorem keysAfter_snoc :
    ∀ (l : List VRec) (ks : List String) (d : VRec),
      keysAfter ks (l ++ [d]) =
        if rrfKey d ∈ keysAfter ks l then keysAfter ks l
        else keysAfter ks l ++ [rrfKey d] := by
  intro l
  induction l with
  | nil => intro ks d; simp [keysAfter]
  | cons e rest ih =>
    intro ks d
    by_cases hmem : rrfKey e ∈ ks
    · rw [List.cons_append, keysAfter, if_pos hmem, ih, keysAfter, if_pos hmem]
    · rw [List.cons_append, keysAfter, if_neg hmem, ih, keysAfter, if_neg hmem]

theorem contribSum_append (key : String) (a b : List (VRec × ℚ)) :
    contribSum key (a ++ b) = contribSum key a + contribSum key b := by
  induction a with
  | nil => rw [List.nil_append, contribSum, zero_add]
  | cons dc rest ih => rw [List.cons_append, contribSum, contribSum, ih, add_assoc]

theorem contribSum_eq_zero (key : String) :
    ∀ (l : List (VRec × ℚ)), (∀ dc ∈ l, rrfKey dc.1 ≠ key) → contribSum key l = 0 := by
  intro l
  induction l with
  | nil => intro _; rfl
  | cons dc rest ih =>
    intro h
    rw [contribSum, if_neg (h dc (List.mem_cons_self dc rest)),
      ih (fun x hx => h x (List.mem_cons_of_mem _ hx)), zero_add]

theorem contribSum_snoc (key : String) (l : List (VRec × ℚ)) (dc : VRec × ℚ) :
    contribSum key (l ++ [dc]) =
      contribSum key l + (if rrfKey dc.1 = key then dc.2 else 0) := by
  rw [contribSum_append, contribSum, contribSum, add_zero]

theorem contribSum_wTag (k w : ℚ) (key : String) :
    ∀ (src : List (VRec × ℚ)) (rank : Nat),
      contribSum key (wTag k w rank src) = specContrib k w key rank src := by
  intro src
  induction src with
  | nil => intro rank; rfl
  | cons p rest ih => intro rank; rw [wTag, contribSum, specContrib, ih]

theorem contribSum_wStream (k : ℚ) (ws : List ℚ) (key : String) :
    ∀ (lists : List (List (VRec × ℚ))) (i : Nat),
      contribSum key (wStream k ws i lists) = specScore k ws key i lists := by
  intro lists
  induction lists with
  | nil => intro i; rfl
  | cons src rest ih =>
    intro i
    rw [wStream, contribSum_append, contribSum_wTag, specScore, ih]

theorem specContrib_eq_zero (k w : ℚ) (key : String) :
    ∀ (src : List (VRec × ℚ)) (rank : Nat),
      (∀ p ∈ src, rrfKey p.1 ≠ key) → specContrib k w key rank src = 0 := by
  intro src
  induction src with
  | nil => intro rank _; rfl
  | cons p rest ih =>
    intro rank h
    rw [specContrib, if_neg (h p (List.mem_cons_self p rest)),
      ih (rank + 1) (fun x hx => h x (List.mem_cons_of_mem _ hx)), zero_add]

theorem specContrib_findIdx (k w : ℚ) (key : String) :
    ∀ (src : List (VRec × ℚ)) (rank : Nat),
      (src.map (fun p => rrfKey p.1)).Nodup →
      specContrib k w key rank src =
        match List.findIdx? (fun p => rrfKey p.1 == key) src rank with
        | none => 0
        | some r => w * (1 / (k + (r : ℚ) + 1)) := by
  intro src
  induction src with
  | nil => intro rank _; rfl
  | cons p rest ih =>
    intro rank hnd
    rw [List.map_cons, List.nodup_cons] at hnd
    rw [specContrib, List.findIdx?_cons]
    by_cases hk : rrfKey p.1 = key
    · rw [if_pos hk, if_pos (by rw [beq_iff_eq]; exact hk)]
      have hz : specContrib k w key (rank + 1) rest = 0 := by
        apply specContrib_eq_zero
        intro x hx he
        apply hnd.1
        rw [hk, ← he]
        exact List.mem_map_of_mem (fun p => rrfKey p.1) hx
      rw [hz, add_zero]
    · rw [if_neg hk, if_neg (by rw [beq_iff_eq]; exact hk), zero_add]
      exact ih (rank + 1) hnd.2

theorem specScore_claimScore (k : ℚ) (ws : List ℚ) (key : String) :
    ∀ (lists : List (List (VRec × ℚ))) (i : Nat),
      (∀ src ∈ lists, (src.map (fun p => rrfKey p.1)).Nodup) →
      specScore k ws key i lists = claimScore k ws key i lists := by
  intro lists
  induction lists with
  | nil => intro i _; rfl
  | cons src rest ih =>
    intro i h
    rw [specScore, claimScore, ih (i + 1) (fun s hs => h s (List.mem_cons_of_mem _ hs)),
      specContrib_findIdx k (rrfWeight ws i) key src 0 (h src (List.mem_cons_self _ _)),
      srcRank]

theorem rrfUpsert_cond (f : List FusedEntry) (key : String) :
    (f.any (fun e => e.1 == key)) = true ↔ key ∈ f.map (·.1) := by
  simp [List.any_eq_true, List.mem_map, beq_iff_eq]

theorem rrfUpsert_keys (f : List FusedEntry) (key : String) (d : VRec) (c : ℚ) :
    (rrfUpsert f key d c).map (·.1) =
      if key ∈ f.map (·.1) then f.map (·.1) else f.map (·.1) ++ [key] := by
  by_cases hmem : key ∈ f.map (·.1)
  · rw [rrfUpsert, if_pos ((rrfUpsert_cond f key).mpr hmem), if_pos hmem, List.map_map]
    apply List.map_congr_left
    intro e _
    show (if (e.1 == key) = true then (e.1, d, e.2.2 + c) else e).1 = e.1
    split
    · rfl
    · rfl
  · rw [rrfUpsert, if_neg (fun hc => hmem ((rrfUpsert_cond f key).mp hc)), if_neg hmem,
      List.map_append]
    rfl

theorem lastDocFor_snoc (key : String) (ds : List VRec) (d : VRec) :
    lastDocFor key (ds ++ [d]) =
      if rrfKey d = key then some d else lastDocFor key ds := by
  rw [lastDocFor, lastDocFor, List.filter_append]
  by_cases hk : rrfKey d = key
  · rw [if_pos hk]
    have hf : List.filter (fun d' => rrfKey d' == key) [d] = [d] := by simp [hk]
    rw [hf, List.getLast?_concat]
  · rw [if_neg hk]
    have hf : List.filter (fun d' => rrfKey d' == key) [d] = [] := by simp [hk]
    rw [hf, List.append_nil]

theorem rrfUpsert_inv_step (f : List FusedEntry) (dc : VRec × ℚ)
    (processed : List (VRec × ℚ))
    (h1 : f.map (·.1) = keysAfter [] (processed.map (·.1)))
    (h2 : ∀ e ∈ f, rrfKey e.2.1 = e.1 ∧
      lastDocFor e.1 (processed.map (·.1)) = some e.2.1 ∧
      e.2.2 = contribSum e.1 processed) :
    ∀ e ∈ rrfUpsert f (rrfKey dc.1) dc.1 dc.2,
      rrfKey e.2.1 = e.1 ∧
      lastDocFor e.1 ((processed ++ [dc]).map (·.1)) = some e.2.1 ∧
      e.2.2 = contribSum e.1 (processed ++ [dc]) := by
  have hmap : (processed ++ [dc]).map (·.1) = processed.map (·.1) ++ [dc.1] := by
    simp
  intro e he
  rw [rrfUpsert] at he
  by_cases hc : (f.any (fun e' => e'.1 == rrfKey dc.1)) = true
  · rw [if_pos hc] at he
    rw [List.mem_map] at he
    obtain ⟨e', he', heq⟩ := he
    obtain ⟨hk', hl', hs'⟩ := h2 e' he'
    by_cases hkey : (e'.1 == rrfKey dc.1) = true
    · rw [if_pos hkey] at heq
      rw [beq_iff_eq] at hkey
      subst heq
      refine ⟨?_, ?_, ?_⟩
      · show rrfKey dc.1 = e'.1
        exact hkey.symm
      · show lastDocFor e'.1 ((processed ++ [dc]).map (·.1)) = some dc.1
        rw [hmap, lastDocFor_snoc, if_pos hkey.symm]
      · show e'.2.2 + dc.2 = contribSum e'.1 (processed ++ [dc])
        rw [contribSum_snoc, if_pos hkey.symm, hs']
    · rw [if_neg hkey] at heq
      subst heq
      have hkne : rrfKey dc.1 ≠ e'.1 := by
        intro h
        exact hkey (by rw [beq_iff_eq]; exact h.symm)
      exact ⟨hk', by rw [hmap, lastDocFor_snoc, if_neg hkne]; exact hl',
             by rw [contribSum_snoc, if_neg hkne, add_zero]; exact hs'⟩
  · rw [if_neg hc] at he
    rcases List.mem_append.mp he with hin | hin
    · obtain ⟨hk', hl', hs'⟩ := h2 e hin
      have hkne : rrfKey dc.1 ≠ e.1 := by
        intro h
        apply hc
        rw [List.any_eq_true]
        exact ⟨e, hin, by rw [beq_iff_eq]; exact h.symm⟩
      exact ⟨hk', by rw [hmap, lastDocFor_snoc, if_neg hkne]; exact hl',
             by rw [contribSum_snoc, if_neg hkne, add_zero]; exact hs'⟩
    · rw [List.mem_singleton] at hin
      subst hin
      refine ⟨rfl, ?_, ?_⟩
      · show lastDocFor (rrfKey dc.1) ((processed ++ [dc]).map (·.1)) = some dc.1
        rw [hmap, lastDocFor_snoc, if_pos rfl]
      · show dc.2 = contribSum (rrfKey dc.1) (processed ++ [dc])
        have hzero : contribSum (rrfKey dc.1) processed = 0 := by
          apply contribSum_eq_zero
          intro p hp hkeyp
          apply hc
          apply (rrfUpsert_cond f (rrfKey dc.1)).mpr
          rw [h1]
          exact (mem_keysAfter (processed.map (·.1)) [] (rrfKey dc.1)).mpr
            (Or.inr ⟨p.1, List.mem_map_of_mem _ hp, hkeyp⟩)
        rw [contribSum_snoc, if_pos rfl, hzero, zero_add]

theorem rrfFold_inv :
    ∀ (stream : List (VRec × ℚ)) (f : List FusedEntry) (processed : List (VRec × ℚ)),
      f.map (·.1) = keysAfter [] (processed.map (·.1)) →
      (∀ e ∈ f, rrfKey e.2.1 = e.1 ∧
        lastDocFor e.1 (processed.map (·.1)) = some e.2.1 ∧
        e.2.2 = contribSum e.1 processed) →
      (rrfFold f stream).map (·.1) = keysAfter [] ((processed ++ stream).map (·.1)) ∧
      (∀ e ∈ rrfFold f stream, rrfKey e.2.1 = e.1 ∧
        lastDocFor e.1 ((processed ++ stream).map (·.1)) = some e.2.1 ∧
        e.2.2 = contribSum e.1 (processed ++ stream)) := by
  intro stream
  induction stream with
  | nil =>
    intro f processed h1 h2
    rw [List.append_nil]
    exact ⟨h1, h2⟩
  | cons dc rest ih =>
    intro f processed h1 h2
    have hstep1 : (rrfUpsert f (rrfKey dc.1) dc.1 dc.2).map (·.1) =
        keysAfter [] ((processed ++ [dc]).map (·.1)) := by
      rw [rrfUpsert_keys, h1]
      simp only [List.map_append, List.map_cons, List.map_nil]
      rw [keysAfter_snoc]
    have hstep2 := rrfUpsert_inv_step f dc processed h1 h2
    have hres := ih (rrfUpsert f (rrfKey dc.1) dc.1 dc.2) (processed ++ [dc]) hstep1 hstep2
    rw [List.append_assoc, List.singleton_append] at hres
    rw [rrfFold]
    exact hres

theorem perm_insertDescBy (score : α → ℚ) (x : α) (l : List α) :
    (insertDescBy score x l).Perm (x :: l) := by
  induction l with
  | nil => exact List.Perm.refl _
  | cons y ys ih =>
    rw [insertDescBy]
    by_cases hlt : score x < score y
    · rw [if_pos hlt]
      exact (ih.cons y).trans (List.Perm.swap x y ys)
    · rw [if_neg hlt]

theorem perm_sortDescBy (score : α → ℚ) (l : List α) : (sortDescBy score l).Perm l := by
  induction l with
  | nil => exact List.Perm.refl _
  | cons x xs ih =>
    rw [sortDescBy]
    exact (perm_insertDescBy score x _).trans (ih.cons x)

theorem pairwise_insertDescBy (score : α → ℚ) (x : α) (l : List α)
    (h : l.Pairwise (fun a b => score b ≤ score a)) :
    (insertDescBy score x l).Pairwise (fun a b => score b ≤ score a) := by
  induction l with
  | nil => simp [insertDescBy]
  | cons y ys ih =>
    rcases List.pairwise_cons.mp h with ⟨hy, hys⟩
    rw [insertDescBy]
    by_cases hlt : score x < score y
    · rw [if_pos hlt]
      refine List.pairwise_cons.mpr ⟨?_, ih hys⟩
      intro a ha
      rcases (mem_insertDescBy score x ys a).mp ha with h2 | h2
      · subst h2; exact le_of_lt hlt
      · exact hy a h2
    · rw [if_neg hlt]
      refine List.pairwise_cons.mpr ⟨?_, h⟩
      intro a ha
      rcases List.mem_cons.mp ha with h2 | h2
      · subst h2; exact not_lt.mp hlt
      · exact le_trans (hy a h2) (not_lt.mp hlt)

theorem pairwise_sortDescBy (score : α → ℚ) (l : List α) :
    (sortDescBy score l).Pairwise (fun a b => score b ≤ score a) := by
  induction l with
  | nil => simp [sortDescBy]
  | cons x xs ih =>
    rw [sortDescBy]
    exact pairwise_insertDescBy score x _ ih

theorem filter_insertDescBy (score : α → ℚ) (q : ℚ) (x : α) (l : List α) :
    (insertDescBy score x l).filter (fun a => score a == q) =
      if (score x == q) = true then x :: l.filter (fun a => score a == q)
      else l.filter (fun a => score a == q) := by
  induction l with
  | nil => rw [insertDescBy, List.filter_cons]
  | cons y ys ih =>
    rw [insertDescBy]
    by_cases hlt : score x < score y
    · rw [if_pos hlt, List.filter_cons, ih]
      by_cases hxq : (score x == q) = true
      · have hyq : ¬ ((score y == q) = true) := by
          rw [beq_iff_eq] at hxq ⊢
          intro h
          rw [hxq] at hlt
          rw [h] at hlt
          exact lt_irrefl q hlt
        simp only [if_pos hxq, if_neg hyq, List.filter_cons]
      · simp only [if_neg hxq, List.filter_cons]
    · rw [if_neg hlt]
      simp only [List.filter_cons]

theorem filter_sortDescBy (score : α → ℚ) (q : ℚ) (l : List α) :
    (sortDescBy score l).filter (fun a => score a == q) =
      l.filter (fun a => score a == q) := by
  induction l with
  | nil => rfl
  | cons x xs ih =>
    rw [sortDescBy, filter_insertDescBy, ih, List.filter_cons]

theorem rrf_eq_fold (lists : List (List (VRec × ℚ))) (k : ℚ) (ws : List ℚ) :
    reciprocal_rank_fusion lists k (some ws) =
      (sortDescBy (fun e => e.2.2) (rrfFold [] (wStream k ws 0 lists))).map (·.2) := by
  rw [reciprocal_rank_fusion]
  simp only [Option.getD_some]
  rw [rrfAll_eq_fold]

theorem mem_allSrcDocs (lists : List (List (VRec × ℚ))) (d : VRec) :
    d ∈ allSrcDocs lists ↔ ∃ src ∈ lists, ∃ p ∈ src, p.1 = d := by
  rw [allSrcDocs, List.mem_flatten]
  constructor
  · rintro ⟨l, hl, hd⟩
    rw [List.mem_map] at hl
    obtain ⟨src, hsrc, rfl⟩ := hl
    rw [List.mem_map] at hd
    obtain ⟨p, hp, hpd⟩ := hd
    exact ⟨src, hsrc, p, hp, hpd⟩
  · rintro ⟨src, hsrc, p, hp, hpd⟩
    exact ⟨src.map (·.1), List.mem_map_of_mem _ hsrc, hpd ▸ List.mem_map_of_mem _ hp⟩

theorem c1_fused_inv (lists : List (List (VRec × ℚ))) (k : ℚ) (ws : List ℚ) :
    (rrfFold [] (wStream k ws 0 lists)).map (·.1) = firstSeenKeys lists ∧
    (∀ e ∈ rrfFold [] (wStream k ws 0 lists), rrfKey e.2.1 = e.1 ∧
      lastDocFor e.1 (allSrcDocs lists) = some e.2.1 ∧
      e.2.2 = specScore k ws e.1 0 lists) := by
  obtain ⟨hkeys, hent⟩ := rrfFold_inv (wStream k ws 0 lists) [] [] rfl
    (by intro e he; exact absurd he (List.not_mem_nil e))
  rw [List.nil_append] at hkeys hent
  constructor
  · rw [hkeys, wStream_docs, firstSeenKeys_eq]
  · intro e he
    obtain ⟨h1, h2, h3⟩ := hent e he
    rw [wStream_docs] at h2
    rw [contribSum_wStream] at h3
    exact ⟨h1, h2, h3⟩

/-- Claim C1 (amended): keyed by the joined string
`f"{source_type}_{doc_name}_{clause_id}"` (not the composite triple), and
provided no key occurs twice within a single source,
`reciprocal_rank_fusion` returns exactly one entry per key occurring in any
source (its key list is a permutation of the first-seen key order, which is
duplicate-free and covers exactly the occurring keys), each entry's score
equals the claim formula `Σ over sources containing the key of
weight[source] * 1/(K + rank_in_source + 1)`, each entry carries the
last-seen record with its key, the output is sorted by descending fused
score, and entries of equal score keep the first-seen order of their keys
across the source lists. -/
theorem c1_rrf_fusion (lists : List (List (VRec × ℚ))) (k : ℚ) (ws : List ℚ)
    (hsrc : ∀ src ∈ lists, (src.map (fun p => rrfKey p.1)).Nodup) :
    ((reciprocal_rank_fusion lists k (some ws)).map (fun p => rrfKey p.1)).Perm
        (firstSeenKeys lists) ∧
    (firstSeenKeys lists).Nodup ∧
    (∀ key : String, key ∈ firstSeenKeys lists ↔
      ∃ src ∈ lists, ∃ p ∈ src, rrfKey p.1 = key) ∧
    (∀ p ∈ reciprocal_rank_fusion lists k (some ws),
      p.2 = claimScore k ws (rrfKey p.1) 0 lists ∧
      lastDocFor (rrfKey p.1) (allSrcDocs lists) = some p.1) ∧
    (reciprocal_rank_fusion lists k (some ws)).Pairwise (fun a b => b.2 ≤ a.2) ∧
    (∀ q : ℚ,
      (((reciprocal_rank_fusion lists k (some ws)).filter (fun p => p.2 == q)).map
        (fun p => rrfKey p.1)).Sublist (firstSeenKeys lists)) := by
  obtain ⟨hkeys, hent⟩ := c1_fused_inv lists k ws
  have hentS : ∀ e ∈ sortDescBy (fun e : FusedEntry => e.2.2)
      (rrfFold [] (wStream k ws 0 lists)), rrfKey e.2.1 = e.1 ∧
      lastDocFor e.1 (allSrcDocs lists) = some e.2.1 ∧
      e.2.2 = specScore k ws e.1 0 lists := by
    intro e he
    exact hent e ((mem_sortDescBy _ _ e).mp he)
  refine ⟨?_, ?_, ?_, ?_, ?_, ?_⟩
  · rw [rrf_eq_fold, List.map_map]
    have hmc : ((fun p : VRec × ℚ => rrfKey p.1) ∘ (fun e : FusedEntry => e.2)) =
        fun e : FusedEntry => rrfKey e.2.1 := rfl
    rw [hmc]
    have hcongr : (sortDescBy (fun e : FusedEntry => e.2.2)
        (rrfFold [] (wStream k ws 0 lists))).map (fun e => rrfKey e.2.1) =
        (sortDescBy (fun e : FusedEntry => e.2.2)
          (rrfFold [] (wStream k ws 0 lists))).map (·.1) :=
      List.map_congr_left (fun e he => (hentS e he).1)
    rw [hcongr, ← hkeys]
    exact (perm_sortDescBy _ _).map _
  · rw [firstSeenKeys_eq]
    exact nodup_keysAfter _ [] List.nodup_nil
  · intro key
    rw [firstSeenKeys_eq, mem_keysAfter]
    constructor
    · rintro (h | ⟨d, hd, he⟩)
      · exact absurd h (List.not_mem_nil key)
      · obtain ⟨src, hsrc, p, hp, hpd⟩ := (mem_allSrcDocs lists d).mp hd
        exact ⟨src, hsrc, p, hp, hpd ▸ he⟩
    · rintro ⟨src, hsrc, p, hp, he⟩
      exact Or.inr ⟨p.1, (mem_allSrcDocs lists p.1).mpr ⟨src, hsrc, p, hp, rfl⟩, he⟩
  · intro p hp
    rw [rrf_eq_fold, List.mem_map] at hp
    obtain ⟨e, he, rfl⟩ := hp
    obtain ⟨h1, h2, h3⟩ := hentS e he
    rw [h1]
    refine ⟨?_, h2⟩
    rw [h3]
    exact specScore_claimScore k ws e.1 lists 0 hsrc
  · rw [rrf_eq_fold]
    rw [List.pairwise_map]
    exact pairwise_sortDescBy _ _
  · intro q
    rw [rrf_eq_fold, List.filter_map]
    have hpc : ((fun p : VRec × ℚ => p.2 == q) ∘ (fun e : FusedEntry => e.2)) =
        fun e : FusedEntry => e.2.2 == q := rfl
    rw [hpc, filter_sortDescBy, List.map_map]
    have hmc : ((fun p : VRec × ℚ => rrfKey p.1) ∘ (fun e : FusedEntry => e.2)) =
        fun e : FusedEntry => rrfKey e.2.1 := rfl
    rw [hmc]
    have hcongr : ((rrfFold [] (wStream k ws 0 lists)).filter
        (fun e => e.2.2 == q)).map (fun e => rrfKey e.2.1) =
        ((rrfFold [] (wStream k ws 0 lists)).filter
          (fun e => e.2.2 == q)).map (·.1) :=
      List.map_congr_left (fun e he => (hent e (List.mem_of_mem_filter he)).1)
    rw [hcongr, ← hkeys]
    exact (List.filter_sublist _).map _

/-- Witness for C1: fusing two sources `[vW1, vW2]` and `[vW3]` with
weights `[3/2, 1]` (where `vW1` and `vW3` share the key `KB_d_1.1`) the
fused keys are a permutation of the first-seen order
`[KB_d_1.1, DOC_d_1.2]` and every output score follows the claim
formula. -/
theorem c1_rrf_fusion_witness :
    (∀ src ∈ [[(vW1, (1 : ℚ)), (vW2, 1/2)], [(vW3, 1)]],
      (src.map (fun p => rrfKey p.1)).Nodup) ∧
    firstSeenKeys [[(vW1, (1 : ℚ)), (vW2, 1/2)], [(vW3, 1)]] =
      ["KB_d_1.1", "DOC_d_1.2"] ∧
    ((reciprocal_rank_fusion [[(vW1, (1 : ℚ)), (vW2, 1/2)], [(vW3, 1)]] 60
        (some [3/2, 1])).map (fun p => rrfKey p.1)).Perm
      (firstSeenKeys [[(vW1, (1 : ℚ)), (vW2, 1/2)], [(vW3, 1)]]) ∧
    (∀ p ∈ reciprocal_rank_fusion [[(vW1, (1 : ℚ)), (vW2, 1/2)], [(vW3, 1)]] 60
        (some [3/2, 1]),
      p.2 = claimScore 60 [3/2, 1] (rrfKey p.1) 0 [[(vW1, 1), (vW2, 1/2)], [(vW3, 1)]] ∧
      lastDocFor (rrfKey p.1) (allSrcDocs [[(vW1, 1), (vW2, 1/2)], [(vW3, 1)]]) =
        some p.1) := by
  have h := c1_rrf_fusion [[(vW1, (1 : ℚ)), (vW2, 1/2)], [(vW3, 1)]] 60 [3/2, 1]
    (by decide)
  exact ⟨by decide, by decide, h.1, h.2.2.2.1⟩

/-- Claim C1 counterexample: the code's de-duplication key is the joined
string `f"{source_type}_{doc_name}_{clause_id}"`, not the composite triple:
`vC1a` (triple `("DOC", "a", "b_c")`) and `vC1b` (triple
`("DOC", "a_b", "c")`) have distinct triples but the same joined key
`"DOC_a_b_c"`, so fusing one source containing both yields a single merged
entry — carrying the last-seen record `vC1b` — instead of one entry per
composite triple as the claim requires. -/
theorem c1_composite_key_counterexample :
    tripleKey vC1a ≠ tripleKey vC1b ∧
    ((reciprocal_rank_fusion [[(vC1a, 1), (vC1b, 1/2)]] 60 none).map
      (fun p => tripleKey p.1)) = [tripleKey vC1b] := by decide

/-! ### Namespace-collection lemmas for the vector engine router -/

theorem find?_nsUpdate (ns : String) (recs : List VRec) :
    ∀ (nss : List (String × List VRec)) (ns' : String),
      (nss.map (fun p => if p.1 == ns then (p.1, p.2 ++ recs) else p)).find?
          (fun p => p.1 == ns') =
        if ns' = ns then
          (nss.find? (fun p => p.1 == ns)).map (fun p => (p.1, p.2 ++ recs))
        else nss.find? (fun p => p.1 == ns') := by
  intro nss
  induction nss with
  | nil => intro ns'; by_cases h : ns' = ns <;> simp [h]
  | cons hd tl ih =>
    intro ns'
    obtain ⟨k, v⟩ := hd
    by_cases hk : k = ns
    · subst hk
      by_cases h' : ns' = k
      · subst h'
        simp [List.find?_cons, ih]
      · simp only [List.map_cons, List.find?_cons]
        have h1 : (k == k) = true := by simp
        have h2 : ((k, v ++ recs).1 == ns') = false := by simp [Ne.symm h']
        simp only [h1, if_true, h2]
        have h3 : ((k, v).1 == ns') = false := by simp [Ne.symm h']
        rw [ih ns']
        simp [h', h3]
    · by_cases h' : ns' = k
      · have hne2 : ¬ ns' = ns := fun hh => hk (by rw [← h', hh])
        simp only [List.map_cons, List.find?_cons]
        have h1 : (k == ns) = false := by simp [hk]
        simp only [h1, if_false]
        have h2 : ((k, v).1 == ns') = true := by simp [h'.symm]
        simp [h2, hne2]
      · simp only [List.map_cons, List.find?_cons]
        have h1 : (k == ns) = false := by simp [hk]
        simp only [h1, if_false]
        have h2 : ((k, v).1 == ns') = false := by simp [Ne.symm h']
        rw [ih ns']
        by_cases h3 : ns' = ns
        · simp [h3, h2, h1, List.find?_cons]
        · simp [h3, h2, List.find?_cons]

theorem find?_ns_append (nss : List (String × List VRec)) (ns : String)
    (recs : List VRec) (ns' : String) :
    (nss ++ [(ns, recs)]).find? (fun p => p.1 == ns') =
      match nss.find? (fun p => p.1 == ns') with
      | some a => some a
      | none => if ns' = ns then some (ns, recs) else none := by
  induction nss with
  | nil =>
    by_cases h : ns' = ns
    · simp [h]
    · simp [h, Ne.symm h]
  | cons hd tl ih =>
    obtain ⟨k, v⟩ := hd
    by_cases h1 : k = ns' <;> simp [List.cons_append, List.find?_cons, h1, ih]

theorem nsLookup_ingest_other (eng : RAGState) (hp : eng.use_pinecone = true)
    (clauses : List IngestRec) (sid nsArg : Option String) (ns' : String)
    (hne : ns' ≠ resolveNamespace sid nsArg) :
    nsLookup (ingest_documents eng clauses sid nsArg) ns' = nsLookup eng ns' := by
  rw [ingest_documents]
  by_cases hc : clauses.isEmpty
  · simp [hc]
  · simp only [hc, if_false, Bool.false_eq_true, hp, if_true]
    rw [nsLookup, nsLookup]
    simp only [nsAdd]
    split
    · rw [find?_nsUpdate]
      simp [hne]
    · rw [find?_ns_append]
      cases hf : eng.pinecone_namespaces.find? (fun p => p.1 == ns') <;>
        simp [hne]

theorem find?_ns_filter_ne (target ns' : String) (hne : ns' ≠ target) :
    ∀ nss : List (String × List VRec),
      (nss.filter (fun p => ¬ p.1 == target)).find? (fun p => p.1 == ns') =
        nss.find? (fun p => p.1 == ns') := by
  intro nss
  induction nss with
  | nil => simp
  | cons hd tl ih =>
    by_cases h1 : hd.1 = target
    · have hfil : ((hd :: tl).filter (fun p => ¬ p.1 == target)) =
          tl.filter (fun p => ¬ p.1 == target) := by
        simp [List.filter_cons, h1]
      have hfind : List.find? (fun p => p.1 == ns') (hd :: tl) =
          List.find? (fun p => p.1 == ns') tl :=
        List.find?_cons_of_neg _ (by simp [h1, Ne.symm hne])
      rw [hfil, ih, hfind]
    · have hfil : ((hd :: tl).filter (fun p => ¬ p.1 == target)) =
          hd :: tl.filter (fun p => ¬ p.1 == target) := by
        simp [List.filter_cons, h1]
      rw [hfil]
      by_cases h3 : hd.1 = ns'
      · rw [List.find?_cons_of_pos _ (by simp [h3]),
          List.find?_cons_of_pos _ (by simp [h3])]
      · rw [List.find?_cons_of_neg _ (by simp [h3]),
          List.find?_cons_of_neg _ (by simp [h3]), ih]

theorem nsLookup_clear (eng : RAGState) (hp : eng.use_pinecone = true)
    (sid nsArg : Option String) :
    nsLookup (clear_index eng sid nsArg) (resolveNamespace sid nsArg) = [] ∧
    (∀ ns', ns' ≠ resolveNamespace sid nsArg →
      nsLookup (clear_index eng sid nsArg) ns' = nsLookup eng ns') := by
  rw [clear_index]
  simp only [hp, if_true]
  constructor
  · rw [nsLookup]
    have hfind : ((eng.pinecone_namespaces.filter
        (fun p => ¬ p.1 == resolveNamespace sid nsArg)).find?
        (fun p => p.1 == resolveNamespace sid nsArg)) = none := by
      rw [List.find?_eq_none]
      intro p hpmem
      have := (List.mem_filter.mp hpmem).2
      simpa using this
    rw [hfind]
    rfl
  · intro ns' hne
    rw [nsLookup, nsLookup]
    rw [find?_ns_filter_ne (resolveNamespace sid nsArg) ns' hne]

/-- Claim C4 counterexample: in FAISS fallback mode there is no namespace
isolation — a record ingested under session `A` is returned by a query
restricted to session `B` with knowledge-base search disabled (for a
legitimate top-k behaviour of the search capability), and
`clear_index` for session `B` drops the single shared store, wiping
session `A`'s vectors as well. -/
theorem c4_faiss_fallback_counterexample :
    (retrieve_similar_clauses searchModel
        (ingest_documents engFaiss0 [ingC4] (some "A") none) "q" 8 false (some "B")
        none).map (fun p => p.1.text) = ["alpha clause text"] ∧
    (ingestToVRec ingC4).text = "alpha clause text" ∧
    resolveNamespace (some "A") none ≠ resolveNamespace (some "B") none ∧
    (clear_index (ingest_documents engFaiss0 [ingC4] (some "A") none)
        (some "B") none).faiss_store = none := by
  exact ⟨by decide, by decide, by decide, by decide⟩

/-- Claim C4 (amended): in Pinecone mode (the engine with native
namespaces) isolation holds — for any search capability that only returns
records of the queried collection, a query restricted to session `B` with
knowledge-base search disabled only returns (DOC-labelled copies of)
records of namespace `session_B`; ingesting under one namespace leaves
every other namespace's collection unchanged; and `clear_index` empties
exactly the resolved namespace.  (In FAISS fallback mode none of this
holds; see the counterexample.) -/
theorem c4_pinecone_namespace_isolation (search : SearchFn)
    (hs : ∀ col q k, ∀ p ∈ search col q k, p.1 ∈ col) :
    (∀ eng, eng.use_pinecone = true → ∀ q tk B p,
      p ∈ retrieve_similar_clauses search eng q tk false (some B) none →
      ∃ v ∈ nsLookup eng (get_session_namespace B),
        p.1 = { v with metadata := { v.metadata with source_type := some "DOC" } }) ∧
    (∀ eng, eng.use_pinecone = true → ∀ recs sid nsArg ns',
      ns' ≠ resolveNamespace sid nsArg →
      nsLookup (ingest_documents eng recs sid nsArg) ns' = nsLookup eng ns') ∧
    (∀ eng, eng.use_pinecone = true → ∀ sid nsArg,
      nsLookup (clear_index eng sid nsArg) (resolveNamespace sid nsArg) = [] ∧
      ∀ ns', ns' ≠ resolveNamespace sid nsArg →
        nsLookup (clear_index eng sid nsArg) ns' = nsLookup eng ns') := by
  refine ⟨?_, ?_, ?_⟩
  · intro eng hp q tk B p hmem
    rw [retrieve_similar_clauses] at hmem
    simp only [hp, if_true] at hmem
    have hzero : ((none : Option Nat).getD 0 ≠ 0) = False := by simp
    simp only [Option.getD_none, ne_eq, not_true_eq_false, if_false,
      reduceIte] at hmem
    have hmem2 := List.mem_of_mem_take hmem
    obtain ⟨src, hsrc, qs, hq⟩ := rrf_mem_docs _ 60 (some [3/2, 1]) p hmem2
    simp only [List.mem_cons, List.mem_singleton, List.not_mem_nil, or_false] at hsrc
    rcases hsrc with hsrc | hsrc
    · subst hsrc
      simp at hq
    · subst hsrc
      rw [List.mem_map] at hq
      obtain ⟨p0, hp0, heq⟩ := hq
      refine ⟨p0.1, hs _ _ _ p0 hp0, ?_⟩
      have := congrArg Prod.fst heq
      simpa [setSourceType] using this.symm
  · intro eng hp recs sid nsArg ns' hne
    exact nsLookup_ingest_other eng hp recs sid nsArg ns' hne
  · intro eng hp sid nsArg
    exact nsLookup_clear eng hp sid nsArg

/-- Witness for C4 at a concrete Pinecone-mode engine with one record per
session namespace: the query restricted to session `B` returns a record,
and that record is `session_B`'s own (DOC-labelled); clearing `session_B`
empties exactly that namespace and leaves `session_A` untouched. -/
theorem c4_pinecone_namespace_isolation_witness :
    (∃ p ∈ retrieve_similar_clauses searchModel engPine "q" 8 false (some "B") none,
      ∃ v ∈ nsLookup engPine (get_session_namespace "B"),
        p.1 = { v with metadata := { v.metadata with source_type := some "DOC" } }) ∧
    nsLookup (clear_index engPine (some "B") none) (resolveNamespace (some "B") none) = [] ∧
    nsLookup (clear_index engPine (some "B") none) "session_A" = nsLookup engPine "session_A" := by
  have hs : ∀ col q k, ∀ p ∈ searchModel col q k, p.1 ∈ col := by
    intro col q k p hp
    rw [searchModel, List.mem_map] at hp
    obtain ⟨v, hv, heq⟩ := hp
    rw [← heq]
    exact List.take_subset _ _ hv
  refine ⟨?_, ?_, ?_⟩
  · have hmap : (retrieve_similar_clauses searchModel engPine "q" 8 false (some "B")
        none).map (fun p => p.1.text) = ["B text"] := by decide
    cases hl : retrieve_similar_clauses searchModel engPine "q" 8 false (some "B") none with
    | nil => rw [hl] at hmap; simp at hmap
    | cons p0 rest =>
      have hmem : p0 ∈ retrieve_similar_clauses searchModel engPine "q" 8 false (some "B")
          none := by
        rw [hl]; exact List.mem_cons_self _ _
      exact ⟨p0, List.mem_cons_self _ _,
        (c4_pinecone_namespace_isolation searchModel hs).1 engPine rfl "q" 8 "B" p0 hmem⟩
  · exact ((c4_pinecone_namespace_isolation searchModel hs).2.2 engPine rfl (some "B") none).1
  · exact ((c4_pinecone_namespace_isolation searchModel hs).2.2 engPine rfl (some "B") none).2
      "session_A" (by decide)

/-! ### Chat controller lemmas -/

theorem get_history_fst (st : Store) (sid : String) (now : Nat) :
    (get_history st sid now).1 = historyOf st sid := by
  rw [get_history, withSession_fst, touchSession_history]

theorem withSession_historyOf (st : Store) (sid : String) (now : Nat)
    (f : SessionData → α × SessionData) (hf : ∀ s, ((f s).2).history = s.history)
    (sid'' : String) :
    historyOf (withSession st sid now f).2 sid'' = historyOf st sid'' := by
  by_cases h : sid'' = sid
  · subst h
    simp [historyOf, withSession_snd_self, hf, touchSession_history]
  · simp [historyOf, withSession_snd_other st sid now f sid'' h]

/-- Claim C8 counterexample: with no retrieval results but a nonempty
conversation history, `/chat` does not return the fixed guidance message —
it invokes the general-knowledge LLM capability and returns its answer. -/
theorem c8_no_results_history_counterexample :
    retrieve_similar_clauses searchModel engFaiss0 "question" 20 false (some "s") none = [] ∧
    historyOf stC8 "s" ≠ [] ∧
    (chat_with_docs searchModel engFaiss0 oraclesC8 stC8 "s" "question" false 7).toOption.map
      (fun t => (t.1, t.2.1)) = some ("GENERAL", ["answer_general_question"]) ∧
    "GENERAL" ≠ chatNoResultsMsg := by
  exact ⟨by decide, by decide, by decide, by decide⟩

/-- Claim C8 (amended): when no retrieval source returns any result *and
the session's conversation history is empty*, `/chat` returns the fixed
guidance message (upload a document or enable the knowledge base) with no
LLM-capability invocation and no history write; with a nonempty history it
instead answers from history via the general-knowledge LLM call. -/
theorem c8_no_results_guidance (search : SearchFn) (eng : RAGState) (o : ChatOracles)
    (st : Store) (sid : String) (query : String) (use_kb : Bool) (now : Nat)
    (hret : retrieve_similar_clauses search eng query 20 use_kb (some sid) none = [])
    (hhist : historyOf st sid = []) :
    ∃ st', chat_with_docs search eng o st sid query use_kb now =
      .ok (chatNoResultsMsg, [], st') ∧ historyOf st' sid = [] := by
  refine ⟨(get_all_documents (get_history st sid now).2 sid now).2, ?_, ?_⟩
  · rw [chat_with_docs]
    simp only [hret, get_history_fst, hhist]
    rfl
  · rw [get_all_documents, withSession_historyOf _ sid now _ (fun s => rfl) sid]
    rw [get_history, withSession_historyOf st sid now _ (fun s => rfl) sid]
    exact hhist

/-- Witness for C8: an empty store and empty engine give the fixed message
with an empty invocation trace. -/
theorem c8_no_results_guidance_witness :
    retrieve_similar_clauses searchModel engFaiss0 "hello" 20 false (some "t") none = [] ∧
    historyOf ([] : Store) "t" = [] ∧
    ∃ st', chat_with_docs searchModel engFaiss0 oraclesC8 ([] : Store) "t" "hello" false 3 =
      .ok (chatNoResultsMsg, [], st') ∧ historyOf st' "t" = [] := by
  exact ⟨by decide, by decide,
    c8_no_results_guidance searchModel engFaiss0 oraclesC8 [] "t" "hello" false 3
      (by decide) (by decide)⟩

/-! ### Clause-extractor severity lemmas -/

theorem buildPdfClauses_severity (cs : List Char) (n : Nat) :
    ∀ ms, ∀ c ∈ buildPdfClauses cs n ms,
      c.severity = (if shallMust c.text then "MUST" else "SHOULD") := by
  intro ms
  induction ms with
  | nil => intro c hc; simp [buildPdfClauses] at hc
  | cons m rest ih =>
    intro c hc
    cases rest with
    | nil =>
      simp only [buildPdfClauses, List.mem_singleton] at hc
      subst hc
      rfl
    | cons m2 rest2 =>
      rw [buildPdfClauses] at hc
      rcases List.mem_cons.mp hc with h | h
      · subst h; rfl
      · exact ih c h

/-- Claim C5 counterexample: a long keyword-free spreadsheet row is
extracted with severity `SHOULD` (not the claimed `DATA`), and a
structured PDF clause containing case-insensitive `required` (but neither
`shall` nor `must`) is extracted with severity `SHOULD` (not the claimed
`MUST`). -/
theorem c5_severity_counterexample :
    (parse_xlsx wbC5).map (fun c => c.severity) = ["SHOULD"] ∧
    (parse_pdf pagesC5).map (fun c => (c.clause_id, c.text, c.severity)) =
      [("1.1", "1.1 Grounding is required.", "SHOULD")] ∧
    pyContains "required" (pyLower "1.1 Grounding is required.") = true ∧
    "SHOULD" ≠ "DATA" ∧ "SHOULD" ≠ "MUST" := by
  exact ⟨by decide, by decide, by decide, by decide, by decide⟩

/-- Claim C5 (amended): spreadsheet rows get severity `MUST` exactly when
the row text contains case-insensitive shall/must/required and `SHOULD`
otherwise (never `DATA`), with the pipe-joined row text longer than 20
characters; extracted PDF tables get severity `DATA` (with the rendered
pipe-joined table text), and every qualifying table yields such a clause;
PDF structured clauses get `MUST` exactly when the clause text contains
case-insensitive shall or must (`required` does **not** trigger `MUST`),
and fallback paragraphs get `UNKNOWN`. -/
theorem c5_severity_assignment :
    (∀ wb : Workbook, ∀ c ∈ parse_xlsx wb,
      c.severity = (if shallMustRequired c.text then "MUST" else "SHOULD") ∧
      20 < c.text.data.length) ∧
    (∀ pages : List PageInput, ∀ c ∈ pdfTableClauses pages, c.severity = "DATA") ∧
    (∀ pages : List PageInput, ∀ pp ∈ pages.enum, ∀ tt ∈ pp.2.tables.enum,
      ¬ tt.2.length < 2 → 30 < (pyStrip (tableText tt.2)).data.length →
      (⟨"TBL-" ++ toString (pp.1 + 1) ++ "-" ++ toString (tt.1 + 1),
        tableLabel pp.1 tt.1 (pp.2.plumberText.getD "") ++ ":\n" ++ tableText tt.2,
        pp.1 + 1, "DATA"⟩ : RawClause) ∈ parse_pdf pages) ∧
    (∀ n : Nat, ∀ pg : PageInput, ∀ c ∈ pdfTextClausesPage n pg,
      (pdfFindMatches (pg.pypdfText.getD "").data = [] → c.severity = "UNKNOWN") ∧
      (pdfFindMatches (pg.pypdfText.getD "").data ≠ [] →
        c.severity = (if shallMust c.text then "MUST" else "SHOULD"))) := by
  refine ⟨?_, ?_, ?_, ?_⟩
  · intro wb c hc
    rw [parse_xlsx, List.mem_flatten] at hc
    obtain ⟨l, hl, hcl⟩ := hc
    rw [List.mem_map] at hl
    obtain ⟨sh, hsh, heql⟩ := hl
    rw [← heql, List.mem_filterMap] at hcl
    obtain ⟨rr, hrr, heq⟩ := hcl
    split at heq
    · exact absurd heq (by simp)
    · split at heq
      · rw [Option.some_inj] at heq
        subst heq
        simp_all
      · exact absurd heq (by simp)
  · intro pages c hc
    rw [pdfTableClauses, List.mem_flatten] at hc
    obtain ⟨l, hl, hcl⟩ := hc
    rw [List.mem_map] at hl
    obtain ⟨pp, hpp, heql⟩ := hl
    rw [← heql, List.mem_filterMap] at hcl
    obtain ⟨tt, htt, heq⟩ := hcl
    rw [tableToClause] at heq
    split at heq
    · exact absurd heq (by simp)
    · split at heq
      · rw [Option.some_inj] at heq
        subst heq
        rfl
      · exact absurd heq (by simp)
  · intro pages pp hpp tt htt hlen htext
    rw [parse_pdf, List.mem_append]
    left
    rw [pdfTableClauses, List.mem_flatten]
    refine ⟨_, List.mem_map_of_mem
      (fun pp => pp.2.tables.enum.filterMap (fun tt =>
        tableToClause pp.1 tt.1 (pp.2.plumberText.getD "") tt.2)) hpp, ?_⟩
    rw [List.mem_filterMap]
    refine ⟨tt, htt, ?_⟩
    rw [tableToClause]
    simp only [hlen, if_false, htext, if_true]
  · intro n pg c hc
    rw [pdfTextClausesPage] at hc
    cases hpg : pg.pypdfText with
    | none =>
      rw [hpg] at hc
      simp at hc
    | some txt =>
      rw [hpg] at hc
      simp only [hpg, Option.getD_some]
      by_cases hemp : txt.data.isEmpty
      · simp [hemp] at hc
      · simp only [hemp, Bool.false_eq_true, if_false] at hc
        constructor
        · intro hnoms
          rw [hnoms] at hc
          simp only [List.mem_filterMap] at hc
          obtain ⟨pp2, hpp2, heq⟩ := hc
          split at heq
          · rw [Option.some_inj] at heq
            subst heq
            rfl
          · exact absurd heq (by simp)
        · intro hms
          cases hms2 : pdfFindMatches txt.data with
          | nil => exact absurd hms2 hms
          | cons m ms' =>
            rw [hms2] at hc
            exact buildPdfClauses_severity txt.data n (m :: ms') c hc

/-- Witness for C5: the concrete spreadsheet row and the concrete
structured PDF clause instantiate the amended severity rules. -/
theorem c5_severity_assignment_witness :
    ((⟨"Sheet1-R1", "alpha beta gamma delta row", 1, "SHOULD"⟩ : RawClause) ∈
      parse_xlsx wbC5) ∧
    ((⟨"Sheet1-R1", "alpha beta gamma delta row", 1, "SHOULD"⟩ : RawClause).severity =
      (if shallMustRequired
          (⟨"Sheet1-R1", "alpha beta gamma delta row", 1, "SHOULD"⟩ : RawClause).text
        then "MUST" else "SHOULD") ∧
      20 < (⟨"Sheet1-R1", "alpha beta gamma delta row", 1, "SHOULD"⟩ : RawClause).text.data.length) ∧
    ((⟨"1.1", "1.1 Grounding is required.", 1, "SHOULD"⟩ : RawClause) ∈
      pdfTextClausesPage 0 ⟨none, some "1.1 Grounding is required.", []⟩) ∧
    (pdfFindMatches (((⟨none, some "1.1 Grounding is required.", []⟩ : PageInput)).pypdfText.getD "").data = [] →
      (⟨"1.1", "1.1 Grounding is required.", 1, "SHOULD"⟩ : RawClause).severity = "UNKNOWN") ∧
    (pdfFindMatches (((⟨none, some "1.1 Grounding is required.", []⟩ : PageInput)).pypdfText.getD "").data ≠ [] →
      (⟨"1.1", "1.1 Grounding is required.", 1, "SHOULD"⟩ : RawClause).severity =
        (if shallMust (⟨"1.1", "1.1 Grounding is required.", 1, "SHOULD"⟩ : RawClause).text
          then "MUST" else "SHOULD")) := by
  refine ⟨by decide, c5_severity_assignment.1 wbC5 _ (by decide), by decide, ?_, ?_⟩
  · exact (c5_severity_assignment.2.2.2 0 ⟨none, some "1.1 Grounding is required.", []⟩
      ⟨"1.1", "1.1 Grounding is required.", 1, "SHOULD"⟩ (by decide)).1
  · exact (c5_severity_assignment.2.2.2 0 ⟨none, some "1.1 Grounding is required.", []⟩
      ⟨"1.1", "1.1 Grounding is required.", 1, "SHOULD"⟩ (by decide)).2

/-! ### Chunking lemmas -/

theorem chunkAux_getElem (t : List Char) (sz ov : Nat) (hs : 0 < sz - ov) :
    ∀ (fuel start i : Nat), t.length - start < fuel →
      (chunkAux fuel t sz ov start)[i]? =
        if start + (sz - ov) * i < t.length then
          some ((t.drop (start + (sz - ov) * i)).take sz)
        else none := by
  intro fuel
  induction fuel with
  | zero => intro start i hf; exact absurd hf (by omega)
  | succ fuel ih =>
    intro start i hf
    rw [chunkAux]
    by_cases hlt : start < t.length
    · simp only [hlt, if_true]
      cases i with
      | zero => simp [hlt]
      | succ i =>
        rw [List.getElem?_cons_succ]
        rw [ih (start + (sz - ov)) i (by omega)]
        have harith : start + (sz - ov) + (sz - ov) * i = start + (sz - ov) * (i + 1) := by
          ring
        rw [harith]
    · simp only [hlt, if_false]
      have hge : ¬ (start + (sz - ov) * i < t.length) := by
        have := Nat.le_add_right start ((sz - ov) * i)
        omega
      simp [hge]

theorem chunk_text_getElem (t : List Char) (sz ov : Nat) (hs : 0 < sz - ov)
    (i : Nat) :
    (chunk_text t sz ov)[i]? =
      if (sz - ov) * i < t.length then some ((t.drop ((sz - ov) * i)).take sz)
      else none := by
  rw [chunk_text]
  by_cases ht : t.isEmpty
  · have hlen : t.length = 0 := by
      cases t
      · rfl
      · simp [List.isEmpty] at ht
    simp [ht, hlen]
  · simp only [ht, Bool.false_eq_true, if_false]
    have := chunkAux_getElem t sz ov hs (t.length + 1) 0 i (by omega)
    simpa using this

theorem add_clause_clausesOf (st : Store) (sid : String) (d : Nat)
    (cid tx : String) (pn : Nat) (sv : String) (now : Nat) :
    clausesOf (add_clause st sid d cid tx pn sv now).2 sid =
      clausesOf st sid ++
        [⟨(touchSession st sid now).clause_counter + 1, d, cid, tx, pn, sv⟩] := by
  rw [add_clause, clausesOf, withSession_snd_self]
  simp [touchSession_clauses]

theorem parse_document_fold (sid fn : String) (now : Nat) (docId : Nat) :
    ∀ (raw : List RawClause) (acc : Store × List IngestRec),
      (raw.foldl (fun acc c =>
        ((add_clause acc.1 sid docId c.clause_id c.text c.page_number c.severity now).2,
         acc.2 ++ ingestPiecesOf docId fn c)) acc).2 =
        acc.2 ++ raw.flatMap (ingestPiecesOf docId fn) ∧
      (∀ cl ∈ clausesOf acc.1 sid,
        cl ∈ clausesOf (raw.foldl (fun acc c =>
          ((add_clause acc.1 sid docId c.clause_id c.text c.page_number c.severity now).2,
           acc.2 ++ ingestPiecesOf docId fn c)) acc).1 sid) ∧
      (∀ c ∈ raw, ∃ cl ∈ clausesOf (raw.foldl (fun acc c =>
          ((add_clause acc.1 sid docId c.clause_id c.text c.page_number c.severity now).2,
           acc.2 ++ ingestPiecesOf docId fn c)) acc).1 sid,
        cl.document_id = docId ∧ cl.clause_id = c.clause_id ∧ cl.text = c.text ∧
        cl.page_number = c.page_number ∧ cl.severity = c.severity) := by
  intro raw
  induction raw with
  | nil => intro acc; simp
  | cons c rest ih =>
    intro acc
    simp only [List.foldl_cons, List.flatMap_cons]
    obtain ⟨ih1, ih2, ih3⟩ := ih
      ((add_clause acc.1 sid docId c.clause_id c.text c.page_number c.severity now).2,
       acc.2 ++ ingestPiecesOf docId fn c)
    refine ⟨?_, ?_, ?_⟩
    · rw [ih1]
      simp
    · intro cl hcl
      apply ih2
      rw [add_clause_clausesOf]
      exact List.mem_append_left _ hcl
    · intro c' hc'
      rcases List.mem_cons.mp hc' with h | h
      · subst h
        refine ⟨⟨(touchSession acc.1 sid now).clause_counter + 1, docId, c'.clause_id,
          c'.text, c'.page_number, c'.severity⟩, ?_, rfl, rfl, rfl, rfl, rfl⟩
        apply ih2
        rw [add_clause_clausesOf]
        simp
      · exact ih3 c' h

/-- Claim C6: clauses whose text exceeds 2500 characters are sent for
embedding as fixed-size character windows of size 800 stepping 650 (overlap
150), the last partial window kept, every character covered by some
window, named `<clauseId>-part<k>` with `k` counting from 1; the structured
clause record itself is stored unsplit; clauses of at most 2500 characters
are sent as a single unsplit piece under the original id. -/
theorem c6_chunk_windows (raw : List RawClause) (st : Store) (eng : RAGState)
    (sid fn ft ver : String) (ns : Option String) (now : Nat) :
    (∀ c ∈ raw,
      ∃ cl ∈ clausesOf (parse_document_core raw st eng sid fn ft ver ns now).2.1 sid,
        cl.document_id = (add_document st sid fn ft ver now).1.id ∧
        cl.clause_id = c.clause_id ∧ cl.text = c.text) ∧
    ((parse_document_core raw st eng sid fn ft ver ns now).2.2 =
      ingest_documents eng
        (raw.flatMap (ingestPiecesOf (add_document st sid fn ft ver now).1.id fn))
        (some sid) ns) ∧
    (∀ c : RawClause, ∀ d : Nat, 2500 < c.text.data.length →
      (∀ i : Nat, (ingestPiecesOf d fn c)[i]? =
        ((chunk_text c.text.data 800 150)[i]?).map (fun sub =>
          ⟨c.clause_id ++ "-part" ++ toString (i + 1), d, some fn, String.mk sub,
           c.page_number⟩)) ∧
      (∀ i : Nat, (chunk_text c.text.data 800 150)[i]? =
        if 650 * i < c.text.data.length then
          some ((c.text.data.drop (650 * i)).take 800)
        else none) ∧
      (∀ j : Nat, j < c.text.data.length →
        ∃ i : Nat, 650 * i ≤ j ∧ j < 650 * i + 800 ∧ 650 * i < c.text.data.length)) ∧
    (∀ c : RawClause, ∀ d : Nat, ¬ 2500 < c.text.data.length →
      ingestPiecesOf d fn c = [⟨c.clause_id, d, some fn, c.text, c.page_number⟩]) := by
  obtain ⟨hfold1, -, hfold3⟩ := parse_document_fold sid fn now
    (add_document st sid fn ft ver now).1.id raw ((add_document st sid fn ft ver now).2, [])
  refine ⟨?_, ?_, ?_, ?_⟩
  · intro c hc
    obtain ⟨cl, hclmem, h1, h2, h3, -, -⟩ := hfold3 c hc
    exact ⟨cl, by rw [parse_document_core]; exact hclmem, h1, h2, h3⟩
  · rw [parse_document_core]
    simp only []
    rw [hfold1]
    simp
  · intro c d h2500
    refine ⟨?_, ?_, ?_⟩
    · intro i
      rw [ingestPiecesOf]
      simp only [h2500, if_true]
      rw [List.getElem?_map, List.getElem?_enum]
      cases hchunk : (chunk_text c.text.data 800 150)[i]? <;> simp [hchunk]
    · intro i
      exact chunk_text_getElem c.text.data 800 150 (by norm_num) i
    · intro j hj
      have hdm := Nat.div_add_mod j 650
      have hm : j % 650 < 650 := Nat.mod_lt _ (by norm_num)
      exact ⟨j / 650, by omega, by omega, by omega⟩
  · intro c d hle
    rw [ingestPiecesOf, if_neg hle]

/-- Witness for C6: a 2600-character clause is windowed into four pieces
(800/800/800/650 characters at starts 0/650/1300/1950) named
`1.1-part1 … 1.1-part4`, while a short clause passes through unsplit. -/
theorem c6_chunk_windows_witness :
    2500 < rawC6long.text.data.length ∧
    ((ingestPiecesOf 1 "f.pdf" rawC6long)[0]? =
      ((chunk_text rawC6long.text.data 800 150)[0]?).map (fun sub =>
        ⟨rawC6long.clause_id ++ "-part" ++ toString (0 + 1), 1, some "f.pdf",
         String.mk sub, rawC6long.page_number⟩)) ∧
    ((chunk_text rawC6long.text.data 800 150)[3]? =
      if 650 * 3 < rawC6long.text.data.length then
        some ((rawC6long.text.data.drop (650 * 3)).take 800)
      else none) ∧
    (¬ 2500 < rawC6short.text.data.length) ∧
    ingestPiecesOf 1 "f.pdf" rawC6short =
      [⟨rawC6short.clause_id, 1, some "f.pdf", rawC6short.text,
        rawC6short.page_number⟩] := by
  have h1 : 2500 < rawC6long.text.data.length := by
    show 2500 < (List.replicate 2600 (Char.ofNat 97)).length
    rw [List.length_replicate]
    norm_num
  have h4 : ¬ 2500 < rawC6short.text.data.length := by decide
  obtain ⟨-, -, h3, hshort⟩ :=
    c6_chunk_windows [] [] engFaiss0 "s" "f.pdf" "customer" "1.0" none 0
  obtain ⟨ha, hb, -⟩ := h3 rawC6long 1 h1
  exact ⟨h1, ha 0, hb 3, h4, hshort rawC6short 1 h4⟩
